import Mathlib

/-!
Verification development for the two serverless HTTP handlers of this
repository: the context-extraction handler (`api/extract-context`-style
endpoint, source file `part_000`) and the product-enrichment handler
(`api/enrich-products.js`).

The JavaScript code is shallowly embedded: JS values are the inductive
`JsVal`, JS strings are `List Char`, and every external effect (the
OpenAI completion call, `JSON.parse`, the Firestore document store,
`Date.now`) is an explicit oracle parameter of the handler function.
Everything else — method dispatch, request validation, code-fence
stripping, metadata validation, batch/concurrency bookkeeping, the
time-budget early exit — is translated directly from the source.
-/

/-! ## JS strings

JS strings are modelled as `List Char`.  `jsWs` is the whitespace class
used by `String.prototype.trim` (restricted to the common ASCII
whitespace characters), `lowerChar` is `String.prototype.toLowerCase`
on a single character (the ASCII fragment: codepoints 65–90 map to
97–122, everything else is fixed). -/

/-- Whitespace test used by the model of `String.prototype.trim`. -/
def jsWs (c : Char) : Bool :=
  c = ' ' || c = '\t' || c = '\n' || c = '\r' || c = '\x0b' || c = '\x0c'

/-- One character of `String.prototype.toLowerCase` (ASCII fragment). -/
def lowerChar (c : Char) : Char :=
  if 'A' ≤ c ∧ c ≤ 'Z' then Char.ofNat (c.toNat + 32) else c

/-- `s.toLowerCase()`. -/
def lowerStr (s : List Char) : List Char := s.map lowerChar

/-- Leading-whitespace removal (first half of `trim`). -/
def dropLeadWs (s : List Char) : List Char := s.dropWhile jsWs

/-- Trailing-whitespace removal (second half of `trim`). -/
def dropTrailWs (s : List Char) : List Char := (s.reverse.dropWhile jsWs).reverse

/-- `s.trim()`. -/
def trimChars (s : List Char) : List Char := dropTrailWs (dropLeadWs s)

/-! ## JS values -/

/-- JavaScript values as far as the two handlers observe them: the JSON
universe plus `undefined`.  Numbers are modelled as integers (no claim
depends on non-integral numbers or NaN). -/
inductive JsVal where
  | undefined : JsVal
  | null : JsVal
  | bool : Bool → JsVal
  | num : Int → JsVal
  | str : List Char → JsVal
  | arr : List JsVal → JsVal
  | obj : List (List Char × JsVal) → JsVal

/-- Field lookup in an object's property list. -/
def lookupField : List (List Char × JsVal) → List Char → Option JsVal
  | [], _ => none
  | (k, v) :: rest, name => if k = name then some v else lookupField rest name

/-- Property update: overwrite an existing key, otherwise append. -/
def setField : List (List Char × JsVal) → List Char → JsVal → List (List Char × JsVal)
  | [], name, v => [(name, v)]
  | (k, w) :: rest, name, v =>
    if k = name then (k, v) :: rest else (k, w) :: setField rest name v

/-- JS truthiness. -/
def jsTruthy : JsVal → Bool
  | .undefined => false
  | .null => false
  | .bool b => b
  | .num n => n != 0
  | .str s => !s.isEmpty
  | .arr _ => true
  | .obj _ => true

/-- `typeof v === 'string'`. -/
def isStrVal : JsVal → Bool
  | .str _ => true
  | _ => false

/-- Unwrap a string value (default `""`; only used under `isStrVal`). -/
def strValD : JsVal → List Char
  | .str s => s
  | _ => []

/-- JS property read `v.name` (also the semantics of destructuring
`const { name } = v`): reading from `null`/`undefined` throws a
TypeError (`none`); a missing property on any other value is
`undefined`.  Primitives and arrays carry no named properties in this
model. -/
def jsGetProp : JsVal → List Char → Option JsVal
  | .undefined, _ => none
  | .null, _ => none
  | .obj fs, name => some ((lookupField fs name).getD .undefined)
  | _, _ => some .undefined

/-- Decimal rendering of a numeric index, for `v[0]` on an object. -/
def natToChars (n : Nat) : List Char := (toString n).data

/-- JS index read `v[i]`: throws (`none`) on `null`/`undefined`,
out-of-range on an array is `undefined`, an object is read at the
stringified key. -/
def jsIndexNat : JsVal → Nat → Option JsVal
  | .undefined, _ => none
  | .null, _ => none
  | .arr xs, i => some (xs[i]?.getD .undefined)
  | .obj fs, i => some ((lookupField fs (natToChars i)).getD .undefined)
  | _, _ => some .undefined

/-- Optional chaining `v?.name`: `undefined` instead of a throw when the
base is `null`/`undefined`. -/
def optChainGet (v : JsVal) (name : List Char) : JsVal :=
  match v with
  | .undefined => .undefined
  | .null => .undefined
  | w => (jsGetProp w name).getD .undefined

mutual

/-- JS string conversion, as used by template-literal interpolation.
Arrays stringify as their comma-joined elements, objects as
`[object Object]`. -/
def jsToString : JsVal → List Char
  | .undefined => "undefined".data
  | .null => "null".data
  | .bool true => "true".data
  | .bool false => "false".data
  | .num n => (toString n).data
  | .str s => s
  | .arr xs => jsArrJoin xs
  | .obj _ => "[object Object]".data

/-- Comma-join of array elements for `Array.prototype.toString`. -/
def jsArrJoin : List JsVal → List Char
  | [] => []
  | [x] => jsItemStr x
  | x :: y :: xs => jsItemStr x ++ [','] ++ jsArrJoin (y :: xs)

/-- Array elements stringify like `jsToString` except that `null` and
`undefined` render as the empty string. -/
def jsItemStr : JsVal → List Char
  | .undefined => []
  | .null => []
  | v => jsToString v

end

/-- Property assignment `target.name = v`, observed through the JSON
serialization that `res.json` performs: an object gains or overwrites
the field; an array accepts the assignment but `JSON.stringify` omits
non-index properties, so the serialized value is unchanged; assigning
to a primitive, `null` or `undefined` throws a TypeError in strict mode
(module code), modelled as `none`. -/
def setPropSer : JsVal → List Char → JsVal → Option JsVal
  | .obj fs, name, v => some (.obj (setField fs name v))
  | .arr xs, _, _ => some (.arr xs)
  | _, _, _ => none

/-- Field of a JSON response body: only objects expose named fields
after serialization. -/
def bodyField (v : JsVal) (name : List Char) : Option JsVal :=
  match v with
  | .obj fs => lookupField fs name
  | _ => none

/-! ## The context-extraction handler (`part_000`) -/

/-- HTTP response: status code plus an optional JSON body
(`none` is the empty body of `res.status(200).end()`). -/
structure HttpResp where
  status : Nat
  body : Option JsVal

def postM : List Char := "POST".data

def optionsM : List Char := "OPTIONS".data

def queryKey : List Char := "query".data

def originalQueryKey : List Char := "originalQuery".data

/-- Truthiness of `process.env.OPENAI_API_KEY`: the variable must be set
and non-empty. -/
def keyTruthy : Option (List Char) → Bool
  | none => false
  | some s => !s.isEmpty

/-- Body `{ error: msg }`. -/
def errBody (msg : List Char) : JsVal := .obj [("error".data, .str msg)]

/-- The degraded context object built on the missing-key path, the
non-ok-response path and the catch path: all fields `null` except
`originalQuery` and the templated `contextExplanation`. -/
def fallbackContext (q : JsVal) : JsVal :=
  .obj [("destination".data, .null), ("occasion".data, .null),
        ("timePeriod".data, .null), ("season".data, .null),
        ("specificMonths".data, .null), (originalQueryKey, q),
        ("contextExplanation".data,
          .str ("Showing results for: ".data ++ jsToString q))]

/-- Line 23 of the source:
`!query || typeof query !== 'string' || query.trim().length === 0`. -/
def queryCheckFails (q : JsVal) : Bool :=
  !jsTruthy q || !isStrVal q || (trimChars (strValD q)).isEmpty

/-- Code-fence stripping shared by both handlers: trim, drop a leading
"```json" (7 chars), drop a leading "```" (3 chars), drop a trailing
"```", trim again. -/
def stripFences (content : List Char) : List Char :=
  let j0 := trimChars content
  let j1 := if "```json".data.isPrefixOf j0 then j0.drop 7 else j0
  let j2 := if "```".data.isPrefixOf j1 then j1.drop 3 else j1
  let j3 := if "```".data.isSuffixOf j2 then j2.take (j2.length - 3) else j2
  trimChars j3

/-- Extraction `data.choices[0].message.content` followed by `.trim()`
eligibility: `none` models a TypeError anywhere along the chain,
including a non-string `content` (which has no `.trim`). -/
def choiceContent (data : JsVal) : Option (List Char) :=
  match jsGetProp data "choices".data with
  | none => none
  | some choices =>
    match jsIndexNat choices 0 with
    | none => none
    | some c0 =>
      match jsGetProp c0 "message".data with
      | none => none
      | some msg =>
        match jsGetProp msg "content".data with
        | some (.str s) => some s
        | _ => none

/-- Outcome of the completion-API `fetch` in the context handler:
a thrown error (network failure, or `response.json()` failing),
a non-ok response, or an ok response with parsed body `data`. -/
inductive FetchOutcome where
  | netThrow : FetchOutcome
  | notOk : FetchOutcome
  | ok : JsVal → FetchOutcome

/-- Tail of the `try` block from the `fetch` call on (source lines
84–142): non-ok responses degrade to the fallback context, an ok
response has its content extracted, fence-stripped, parsed and given
the `originalQuery` property; `none` models a thrown exception. -/
def contextFetchStage (query : JsVal) (fetched : FetchOutcome)
    (parseJson : List Char → Option JsVal) : Option HttpResp :=
  match fetched with
  | .netThrow => none
  | .notOk => some ⟨200, some (fallbackContext query)⟩
  | .ok data =>
    match choiceContent data with
    | none => none
    | some content =>
      match parseJson (stripFences content) with
      | none => none
      | some ctx =>
        match setPropSer ctx originalQueryKey query with
        | none => none
        | some ctx2 => some ⟨200, some ctx2⟩

/-- The `try` block of the context handler (lines 20–142); `none`
models a thrown exception, handled by the surrounding `catch`.
`parseJson` is the `JSON.parse` builtin, an oracle of the model; it
returns `none` when `JSON.parse` would throw. -/
def contextTryRun (reqBody : JsVal) (apiKey : Option (List Char))
    (fetched : FetchOutcome) (parseJson : List Char → Option JsVal) :
    Option HttpResp :=
  match jsGetProp reqBody queryKey with
  | none => none
  | some query =>
    if queryCheckFails query then
      some ⟨400, some (errBody "Query is required".data)⟩
    else if !keyTruthy apiKey then
      some ⟨200, some (fallbackContext query)⟩
    else contextFetchStage query fetched parseJson

/-- The catch path's `req.body?.query || ''`. -/
def catchQueryVal (reqBody : JsVal) : JsVal :=
  let q := optChainGet reqBody queryKey
  if jsTruthy q then q else .str []

/-- The whole context-extraction handler.  Note the source checks
`req.method !== 'POST'` (returning 405) *before* its
`req.method === 'OPTIONS'` preflight branch, so the preflight branch is
dead code; it is kept here in source order. -/
def contextHandler (method : List Char) (reqBody : JsVal)
    (apiKey : Option (List Char)) (fetched : FetchOutcome)
    (parseJson : List Char → Option JsVal) : HttpResp :=
  if method ≠ postM then ⟨405, some (errBody "Method not allowed".data)⟩
  else if method = optionsM then ⟨200, none⟩
  else
    match contextTryRun reqBody apiKey fetched parseJson with
    | some r => r
    | none => ⟨200, some (fallbackContext (catchQueryVal reqBody))⟩

/-! ## Per-product metadata generation (`generateKeywords`) -/

/-- The `validSeasons` list of the source. -/
def validSeasons : List (List Char) :=
  ["SUMMER".data, "WINTER".data, "ALL_SEASON".data]

def allSeason : List Char := "ALL_SEASON".data

/-- The `validBestFor` list of the source. -/
def validBestFor : List (List Char) :=
  ["DATE".data, "CASUAL".data, "OFFICIAL_PURPOSE".data, "FESTIVE".data,
   "PARTY".data]

def casualTag : List Char := "CASUAL".data

/-- Validated metadata returned by `generateKeywords`. -/
structure ProductMetadata where
  keywords : List (List Char)
  season : List Char
  bestFor : List (List Char)
deriving DecidableEq

/-- Keyword filter `k => typeof k === 'string' && k.trim().length > 0`. -/
def keywordKeep (k : JsVal) : Bool :=
  isStrVal k && !(trimChars (strValD k)).isEmpty

/-- Keyword map `k => k.toLowerCase().trim()`. -/
def keywordClean (k : JsVal) : List Char := trimChars (lowerStr (strValD k))

/-- Keyword validation: if `metadata.keywords` is an array, filter to
non-empty strings, lowercase+trim each, keep the first 15; otherwise
the empty list. -/
def cleanKeywords : JsVal → List (List Char)
  | .arr xs => ((xs.filter keywordKeep).map keywordClean).take 15
  | _ => []

/-- Season validation: keep `metadata.season` when it is one of
`validSeasons` (`includes` compares with strict equality, so any
non-string fails), else default to `ALL_SEASON`. -/
def cleanSeason : JsVal → List Char
  | .str s => if validSeasons.contains s then s else allSeason
  | _ => allSeason

/-- Filter `b => validBestFor.includes(b)` (strict equality: only the
five enumeration strings pass). -/
def bestForKeep (b : JsVal) : Bool :=
  match b with
  | .str s => validBestFor.contains s
  | _ => false

/-- `metadata.bestFor.filter(...).slice(0, 5)` when `bestFor` is an
array, else the empty list. -/
def filteredBestFor : JsVal → List (List Char)
  | .arr xs => ((xs.filter bestForKeep).map strValD).take 5
  | _ => []

/-- The final `bestFor.length > 0 ? bestFor : ['CASUAL']`. -/
def cleanBestFor (v : JsVal) : List (List Char) :=
  let bf := filteredBestFor v
  if bf.isEmpty then [casualTag] else bf

/-- `typeof metadata === 'object' && metadata !== null`: objects and
arrays pass (`typeof` of an array is `'object'`), everything else
throws. -/
def isObjectNonNull : JsVal → Bool
  | .obj _ => true
  | .arr _ => true
  | _ => false

/-- Field read on a value already known not to be `null`/`undefined`. -/
def jsField (v : JsVal) (name : List Char) : JsVal :=
  (jsGetProp v name).getD .undefined

/-- The validation tail of `generateKeywords` (source lines 315–350):
structure check, then keyword/season/bestFor cleaning.  `none` models
the `throw` on a non-object parse result. -/
def validateMetadata (metadata : JsVal) : Option ProductMetadata :=
  if isObjectNonNull metadata then
    some { keywords := cleanKeywords (jsField metadata "keywords".data),
           season := cleanSeason (jsField metadata "season".data),
           bestFor := cleanBestFor (jsField metadata "bestFor".data) }
  else none

/-- Outcome of the completion-API `fetch` inside `generateKeywords`.
The two throwing constructors carry the `error.message` recorded in the
caller's error list: a thrown network/parse error, or the
`OpenAI API error: <status> - <text>` error raised on a non-ok
response. -/
inductive GenFetch where
  | netThrow : List Char → GenFetch
  | notOk : List Char → GenFetch
  | ok : JsVal → GenFetch

/-- Stand-in message for an engine-raised TypeError (its exact text is
implementation-defined and never inspected by the code). -/
def typeErrorMsg : List Char := "TypeError".data

/-- Stand-in message for the SyntaxError thrown by `JSON.parse`. -/
def parseErrorMsg : List Char := "SyntaxError".data

/-- The message of the explicit structure-check throw. -/
def invalidFormatMsg : List Char :=
  "OpenAI returned invalid format - expected object".data

/-- `generateKeywords`, given the fetch outcome and the `JSON.parse`
oracle: extract `choices[0].message.content`, trim and strip fences,
parse, validate.  `Except.error` is a thrown error (rethrown by the
function's own catch), carrying the message obtained by the caller. -/
def generateKeywordsRun (fetched : GenFetch)
    (parseJson : List Char → Option JsVal) :
    Except (List Char) ProductMetadata :=
  match fetched with
  | .netThrow m => .error m
  | .notOk m => .error m
  | .ok data =>
    match choiceContent data with
    | none => .error typeErrorMsg
    | some content =>
      match parseJson (stripFences content) with
      | none => .error parseErrorMsg
      | some metadata =>
        match validateMetadata metadata with
        | none => .error invalidFormatMsg
        | some md => .ok md

/-! ## The enrichment handler (`api/enrich-products.js`)

The Firestore collection is the oracle `store : List Product` (the
snapshot's document order); issuing
`db.collection('shop_products').doc(id).update(...)` is recorded in a
ghost `writes` log, and its success or failure is the oracle `upd`.
`Date.now()` comparisons against the 250-second budget reduce to the
oracle `timeUp i`: whether the elapsed-time check at the top of the
batch starting at index `i` exceeds `maxTime`.  The concurrency window
(`Promise.all` over sub-batches of 3) joins all its calls and each call
touches a distinct product, so it is modelled by processing the window
sequentially. -/

/-- A product document: id plus the fields the handler reads.  All
remaining document fields are irrelevant to the handler's control flow
(they are only spread into the in-memory product object). -/
structure Product where
  id : List Char
  name : JsVal
  descField : JsVal
  descriptionField : JsVal
  category : JsVal

/-- Error-list entry of the batched path
(`{productId, productName, error}`). -/
structure ErrEntry where
  productId : List Char
  productName : JsVal
  errMsg : List Char

/-- A store write issued by the handler: target document id and the
update payload (`keywords`, `season`, `bestFor`; the server timestamp
carries no information).  Because validated metadata always has truthy
`keywords`/`season`/`bestFor` (arrays are always truthy in JS), the
`|| []` / `|| 'ALL_SEASON'` defaults in `updateData` are the identity. -/
structure WriteRec where
  pid : List Char
  keywords : List (List Char)
  season : List Char
  bestFor : List (List Char)

/-- Accumulator of the batched loop: the source's `results` counters
plus two ghost logs — the products attempted so far and the store
writes issued so far. -/
structure RunAcc where
  processed : Nat
  updated : Nat
  errors : List ErrEntry
  attempted : List Product
  writes : List WriteRec

def initAcc : RunAcc := ⟨0, 0, [], [], []⟩

def mkWriteRec (p : Product) (md : ProductMetadata) : WriteRec :=
  ⟨p.id, md.keywords, md.season, md.bestFor⟩

/-- One product of the batched path (the async closure at source lines
127–159): generate metadata; on success, unless `dryRun`, issue the
store write (counting `updated` only when it succeeds) and count
`processed`; any thrown error is recorded in `errors` instead. -/
def processOne (dryRun : Bool)
    (gen : Product → Except (List Char) ProductMetadata)
    (upd : Product → Option (List Char)) (acc : RunAcc) (p : Product) :
    RunAcc :=
  let acc0 := { acc with attempted := acc.attempted ++ [p] }
  match gen p with
  | .error m => { acc0 with errors := acc0.errors ++ [⟨p.id, p.name, m⟩] }
  | .ok md =>
    if dryRun then { acc0 with processed := acc0.processed + 1 }
    else
      let acc1 := { acc0 with writes := acc0.writes ++ [mkWriteRec p md] }
      match upd p with
      | some m => { acc1 with errors := acc1.errors ++ [⟨p.id, p.name, m⟩] }
      | none =>
        { acc1 with updated := acc1.updated + 1,
                    processed := acc1.processed + 1 }

/-- Split a list into consecutive chunks of positive size `bs`. -/
def chunksPos (bs : Nat) (hbs : 0 < bs) : List α → List (List α)
  | [] => []
  | x :: xs => (x :: xs).take bs :: chunksPos bs hbs ((x :: xs).drop bs)
termination_by l => l.length
decreasing_by simp [List.length_drop]; omega

/-- One batch: the inner loop `for (j = 0; j < batch.length; j += 3)`
runs each window of 3 through `Promise.all` (modelled sequentially) with
rate-limit delays between windows. -/
def processBatch (dryRun : Bool)
    (gen : Product → Except (List Char) ProductMetadata)
    (upd : Product → Option (List Char)) (acc : RunAcc)
    (batch : List Product) : RunAcc :=
  (chunksPos 3 (by omega) batch).foldl
    (fun a w => w.foldl (processOne dryRun gen upd) a) acc

/-- Result of the batched loop: ran off the end of the product list, or
stopped by the time-budget check before the batch starting at the
returned index. -/
inductive RunOutcome where
  | finished : RunAcc → RunOutcome
  | stopped : RunAcc → Nat → RunOutcome

/-- The batched loop `for (i = 0; i < allProducts.length; i += batchSize)`
with the elapsed-time check at the top of each iteration (source lines
104–174). -/
def enrichLoop (ps : List Product) (bs : Nat) (hbs : 0 < bs)
    (timeUp : Nat → Bool) (dryRun : Bool)
    (gen : Product → Except (List Char) ProductMetadata)
    (upd : Product → Option (List Char)) (i : Nat) (acc : RunAcc) :
    RunOutcome :=
  if i < ps.length then
    if timeUp i then .stopped acc i
    else
      enrichLoop ps bs hbs timeUp dryRun gen upd (i + bs)
        (processBatch dryRun gen upd acc ((ps.drop i).take bs))
  else .finished acc
termination_by ps.length - i
decreasing_by omega

/-- Product entry pushed by `processProducts` on success. -/
structure SingleOut where
  id : List Char
  name : JsVal
  keywords : List (List Char)
  season : List Char
  bestFor : List (List Char)

/-- Error entry of `processProducts` (`{productId, error}`). -/
structure SingleErr where
  productId : List Char
  errMsg : List Char

/-- Ghost observation of a run: attempted products and issued writes. -/
structure RunLog where
  attempted : List Product
  writes : List WriteRec

def emptyLog : RunLog := ⟨[], []⟩

def RunAcc.log (a : RunAcc) : RunLog := ⟨a.attempted, a.writes⟩

/-- Accumulator of `processProducts`. -/
structure SingleAcc where
  products : List SingleOut
  errors : List SingleErr
  attempted : List Product
  writes : List WriteRec

/-- One iteration of `processProducts`' `for` loop: generate, write
unless `dryRun`, push the product entry; a thrown error is recorded in
`errors` instead. -/
def singleStep (dryRun : Bool)
    (gen : Product → Except (List Char) ProductMetadata)
    (upd : Product → Option (List Char)) (acc : SingleAcc) (p : Product) :
    SingleAcc :=
  let acc0 := { acc with attempted := acc.attempted ++ [p] }
  match gen p with
  | .error m => { acc0 with errors := acc0.errors ++ [⟨p.id, m⟩] }
  | .ok md =>
    if dryRun then
      { acc0 with products :=
          acc0.products ++ [⟨p.id, p.name, md.keywords, md.season, md.bestFor⟩] }
    else
      let acc1 := { acc0 with writes := acc0.writes ++ [mkWriteRec p md] }
      match upd p with
      | some m => { acc1 with errors := acc1.errors ++ [⟨p.id, m⟩] }
      | none =>
        { acc1 with products :=
            acc1.products ++ [⟨p.id, p.name, md.keywords, md.season, md.bestFor⟩] }

/-- Batched-path results summary (the source's `results` object minus
the ghost logs). -/
structure BatchResults where
  total : Nat
  processed : Nat
  updated : Nat
  errors : List ErrEntry
  dryRunFlag : Bool

/-- Responses of the enrichment handler. -/
inductive EnrichResp where
  | preflight : EnrichResp
  | methodNotAllowed : EnrichResp
  | serverError : List Char → EnrichResp
  | notFound : EnrichResp
  | singleDone : Bool → List SingleOut → List SingleErr → EnrichResp
  | batchDone : BatchResults → EnrichResp
  | batchStopped : BatchResults → Nat → EnrichResp

/-- HTTP status of each enrichment response; `preflight` is the only
200 with an empty body. -/
def statusOf : EnrichResp → Nat
  | .preflight => 200
  | .methodNotAllowed => 405
  | .serverError _ => 500
  | .notFound => 404
  | .singleDone _ _ _ => 200
  | .batchDone _ => 200
  | .batchStopped _ _ => 200

/-- `processProducts` (source lines 193–237). -/
def processProductsRun (dryRun : Bool)
    (gen : Product → Except (List Char) ProductMetadata)
    (upd : Product → Option (List Char)) (products : List Product) :
    EnrichResp × RunLog :=
  let acc := products.foldl (singleStep dryRun gen upd) ⟨[], [], [], []⟩
  (.singleDone dryRun acc.products acc.errors, ⟨acc.attempted, acc.writes⟩)

/-- The `skip`/`limit` slicing of the candidate list (source lines
79–86): `if (skip > 0) slice(skip); if (limit && limit > 0)
slice(0, limit)` — a `null`/absent or non-positive limit is ignored. -/
def applySkipLimit (ps : List Product) (skip : Nat) (limit : Option Nat) :
    List Product :=
  let ps1 := if 0 < skip then ps.drop skip else ps
  match limit with
  | some l => if 0 < l then ps1.take l else ps1
  | none => ps1

/-- Truthiness of the `productId` request field: `null`/absent and the
empty string are falsy, so only a non-empty id selects the
single-product path. -/
def pidGiven : Option (List Char) → Option (List Char)
  | some s => if s.isEmpty then none else some s
  | none => none

/-- The enrichment handler.  Request fields arrive already destructured
with their declared defaults (`batchSize = 5`, `dryRun = false`,
`productId = null`, `skip = 0`, `limit = null`); `batchSize` is assumed
to be a positive integer, without which the source's loop would not
terminate.  Oracles: `store` (the Firestore snapshot), `genFetch` and
`parseJson` (the completion API and `JSON.parse` inside
`generateKeywords`), `upd` (outcome of each issued store write) and
`timeUp` (the elapsed-time budget check per batch index). -/
def enrichHandler (method : List Char) (batchSize : Nat)
    (hbs : 0 < batchSize) (dryRun : Bool) (productId : Option (List Char))
    (skip : Nat) (limit : Option Nat) (apiKey : Option (List Char))
    (store : List Product) (genFetch : Product → GenFetch)
    (parseJson : List Char → Option JsVal)
    (upd : Product → Option (List Char)) (timeUp : Nat → Bool) :
    EnrichResp × RunLog :=
  if method = optionsM then (.preflight, emptyLog)
  else if method ≠ postM then (.methodNotAllowed, emptyLog)
  else if !keyTruthy apiKey then
    (.serverError "OPENAI_API_KEY not configured".data, emptyLog)
  else
    let gen := fun p => generateKeywordsRun (genFetch p) parseJson
    match pidGiven productId with
    | some pid =>
      match store.find? (fun p => p.id == pid) with
      | none => (.notFound, emptyLog)
      | some p => processProductsRun dryRun gen upd [p]
    | none =>
      let candidates := applySkipLimit store skip limit
      match enrichLoop candidates batchSize hbs timeUp dryRun gen upd 0 initAcc with
      | .finished acc =>
        (.batchDone ⟨candidates.length, acc.processed, acc.updated,
           acc.errors, dryRun⟩, acc.log)
      | .stopped acc i =>
        (.batchStopped ⟨candidates.length, acc.processed, acc.updated,
           acc.errors, dryRun⟩ i, acc.log)

/-! ## Character and trimming lemmas -/

theorem charEqOfToNat {a b : Char} (h : a.toNat = b.toNat) : a = b :=
  Char.eq_of_val_eq (UInt32.eq_of_toBitVec_eq (BitVec.eq_of_toNat_eq h))

theorem charLeIff (a c : Char) : (a ≤ c) ↔ (a.toNat ≤ c.toNat) := Iff.rfl

theorem lowerChar_toNat {c : Char} (h1 : 65 ≤ c.toNat) (h2 : c.toNat ≤ 90) :
    (lowerChar c).toNat = c.toNat + 32 := by
  have hv : (c.toNat + 32).isValidChar := Or.inl (by omega)
  unfold lowerChar
  rw [if_pos ⟨h1, h2⟩, Char.ofNat, dif_pos hv]
  rfl

theorem lowerChar_eq_self {c : Char} (h : ¬(65 ≤ c.toNat ∧ c.toNat ≤ 90)) :
    lowerChar c = c := by
  unfold lowerChar
  exact if_neg (fun hc => h ⟨hc.1, hc.2⟩)

theorem lowerChar_idem (c : Char) : lowerChar (lowerChar c) = lowerChar c := by
  by_cases h : 65 ≤ c.toNat ∧ c.toNat ≤ 90
  · have ht := lowerChar_toNat h.1 h.2
    apply lowerChar_eq_self
    omega
  · simp only [lowerChar_eq_self h]

theorem jsWs_iff (c : Char) : jsWs c = true ↔
    (c.toNat = 32 ∨ c.toNat = 9 ∨ c.toNat = 10 ∨ c.toNat = 13 ∨
     c.toNat = 11 ∨ c.toNat = 12) := by
  unfold jsWs
  simp only [Bool.or_eq_true, decide_eq_true_eq]
  constructor
  · rintro (((((h | h) | h) | h) | h) | h) <;>
      (first
        | exact Or.inl (congrArg Char.toNat h)
        | exact Or.inr (Or.inl (congrArg Char.toNat h))
        | exact Or.inr (Or.inr (Or.inl (congrArg Char.toNat h)))
        | exact Or.inr (Or.inr (Or.inr (Or.inl (congrArg Char.toNat h))))
        | exact Or.inr (Or.inr (Or.inr (Or.inr (Or.inl (congrArg Char.toNat h)))))
        | exact Or.inr (Or.inr (Or.inr (Or.inr (Or.inr (congrArg Char.toNat h))))))
  · rintro (h | h | h | h | h | h)
    · exact Or.inl (Or.inl (Or.inl (Or.inl (Or.inl (charEqOfToNat h)))))
    · exact Or.inl (Or.inl (Or.inl (Or.inl (Or.inr (charEqOfToNat h)))))
    · exact Or.inl (Or.inl (Or.inl (Or.inr (charEqOfToNat h))))
    · exact Or.inl (Or.inl (Or.inr (charEqOfToNat h)))
    · exact Or.inl (Or.inr (charEqOfToNat h))
    · exact Or.inr (charEqOfToNat h)

theorem jsWs_lowerChar (c : Char) : jsWs (lowerChar c) = jsWs c := by
  by_cases h : 65 ≤ c.toNat ∧ c.toNat ≤ 90
  · have ht := lowerChar_toNat h.1 h.2
    have hl : jsWs (lowerChar c) = false := by
      rw [← Bool.not_eq_true, jsWs_iff]
      omega
    have hr : jsWs c = false := by
      rw [← Bool.not_eq_true, jsWs_iff]
      omega
    rw [hl, hr]
  · rw [lowerChar_eq_self h]

theorem dropWhile_head_false {p : Char → Bool} :
    ∀ (l : List Char) (a : Char), (l.dropWhile p).head? = some a → p a = false := by
  intro l
  induction l with
  | nil => intro a h; simp at h
  | cons x xs ih =>
    intro a h
    rw [List.dropWhile_cons] at h
    by_cases hx : p x
    · rw [if_pos hx] at h
      exact ih a h
    · rw [if_neg hx] at h
      simp at h
      rw [← h]
      exact Bool.eq_false_iff.mpr hx

theorem dropWhile_eq_self_of_head {p : Char → Bool} (l : List Char)
    (h : ∀ a, l.head? = some a → p a = false) : l.dropWhile p = l := by
  cases l with
  | nil => rfl
  | cons x xs =>
    rw [List.dropWhile_cons, if_neg]
    rw [h x rfl]
    simp

theorem dropWhile_idem {p : Char → Bool} (l : List Char) :
    (l.dropWhile p).dropWhile p = l.dropWhile p :=
  dropWhile_eq_self_of_head _ (dropWhile_head_false l)

theorem dropWhile_is_endSegment {p : Char → Bool} (l : List Char) :
    ∃ u, u ++ l.dropWhile p = l := by
  induction l with
  | nil => exact ⟨[], rfl⟩
  | cons x xs ih =>
    rw [List.dropWhile_cons]
    by_cases hx : p x
    · rw [if_pos hx]
      obtain ⟨u, hu⟩ := ih
      exact ⟨x :: u, by rw [List.cons_append, hu]⟩
    · rw [if_neg hx]
      exact ⟨[], rfl⟩

theorem dropTrailWs_startSegment (l : List Char) :
    ∃ t, dropTrailWs l ++ t = l := by
  obtain ⟨u, hu⟩ := dropWhile_is_endSegment (p := jsWs) l.reverse
  refine ⟨u.reverse, ?_⟩
  unfold dropTrailWs
  have := congrArg List.reverse hu
  rw [List.reverse_append, List.reverse_reverse] at this
  exact this

theorem dropLeadWs_of_startSegment {l m : List Char} (hm : dropLeadWs m = m)
    (h : ∃ t, l ++ t = m) : dropLeadWs l = l := by
  apply dropWhile_eq_self_of_head
  intro a ha
  cases l with
  | nil => simp at ha
  | cons x xs =>
    simp at ha
    obtain ⟨t, ht⟩ := h
    have hhead : m.head? = some x := by
      rw [← ht]
      rfl
    have hh := dropWhile_head_false (p := jsWs) m
    unfold dropLeadWs at hm
    rw [hm] at hh
    rw [ha] at hhead
    exact hh a hhead

theorem dropTrailWs_idem (l : List Char) :
    dropTrailWs (dropTrailWs l) = dropTrailWs l := by
  unfold dropTrailWs
  rw [List.reverse_reverse, dropWhile_idem]

theorem dropLeadWs_idem (l : List Char) :
    dropLeadWs (dropLeadWs l) = dropLeadWs l :=
  dropWhile_idem l

theorem dropLeadWs_dropTrailWs_comm (l : List Char) (h : dropLeadWs l = l) :
    dropLeadWs (dropTrailWs l) = dropTrailWs l :=
  dropLeadWs_of_startSegment h (dropTrailWs_startSegment l)

theorem trimChars_idem (s : List Char) :
    trimChars (trimChars s) = trimChars s := by
  unfold trimChars
  rw [dropLeadWs_dropTrailWs_comm (dropLeadWs s) (dropLeadWs_idem s),
    dropTrailWs_idem]

theorem dropLeadWs_lowerStr (s : List Char) :
    dropLeadWs (lowerStr s) = lowerStr (dropLeadWs s) := by
  unfold dropLeadWs lowerStr
  rw [List.dropWhile_map]
  have : (jsWs ∘ lowerChar) = jsWs := funext jsWs_lowerChar
  rw [this]

theorem dropTrailWs_lowerStr (s : List Char) :
    dropTrailWs (lowerStr s) = lowerStr (dropTrailWs s) := by
  unfold dropTrailWs lowerStr
  rw [← List.map_reverse, List.dropWhile_map]
  have : (jsWs ∘ lowerChar) = jsWs := funext jsWs_lowerChar
  rw [this, List.map_reverse]

theorem trimChars_lowerStr (s : List Char) :
    trimChars (lowerStr s) = lowerStr (trimChars s) := by
  unfold trimChars
  rw [dropLeadWs_lowerStr, dropTrailWs_lowerStr]

theorem lowerStr_idem (s : List Char) :
    lowerStr (lowerStr s) = lowerStr s := by
  unfold lowerStr
  rw [List.map_map]
  have : (lowerChar ∘ lowerChar) = lowerChar := funext lowerChar_idem
  rw [this]

theorem lowerStr_eq_nil_iff (s : List Char) : lowerStr s = [] ↔ s = [] := by
  unfold lowerStr
  exact List.map_eq_nil_iff

theorem trimChars_lowerStr_ne_nil {s : List Char} (h : trimChars s ≠ []) :
    trimChars (lowerStr s) ≠ [] := by
  rw [trimChars_lowerStr, Ne, lowerStr_eq_nil_iff]
  exact h

/-! ## Metadata validation properties -/

theorem keywordClean_props {x : JsVal} (h : keywordKeep x = true) :
    keywordClean x ≠ [] ∧ lowerStr (keywordClean x) = keywordClean x ∧
      trimChars (keywordClean x) = keywordClean x := by
  unfold keywordKeep at h
  rw [Bool.and_eq_true] at h
  obtain ⟨hs, hne⟩ := h
  cases x with
  | str s =>
    have hne' : trimChars s ≠ [] := by
      intro he
      rw [show strValD (.str s) = s from rfl, he] at hne
      simp at hne
    unfold keywordClean
    rw [show strValD (.str s) = s from rfl]
    refine ⟨trimChars_lowerStr_ne_nil hne', ?_, trimChars_idem _⟩
    rw [trimChars_lowerStr, lowerStr_idem, ← trimChars_lowerStr]
  | undefined => simp [isStrVal] at hs
  | null => simp [isStrVal] at hs
  | bool b => simp [isStrVal] at hs
  | num n => simp [isStrVal] at hs
  | arr xs => simp [isStrVal] at hs
  | obj fs => simp [isStrVal] at hs

theorem cleanKeywords_bounds (v : JsVal) :
    (cleanKeywords v).length ≤ 15 ∧
      ∀ k ∈ cleanKeywords v,
        k ≠ [] ∧ lowerStr k = k ∧ trimChars k = k := by
  cases v with
  | arr xs =>
    unfold cleanKeywords
    refine ⟨List.length_take_le .., ?_⟩
    intro k hk
    have hk' := List.mem_of_mem_take hk
    rw [List.mem_map] at hk'
    obtain ⟨x, hx, hxk⟩ := hk'
    rw [List.mem_filter] at hx
    rw [← hxk]
    exact keywordClean_props hx.2
  | undefined => exact ⟨by simp [cleanKeywords], by simp [cleanKeywords]⟩
  | null => exact ⟨by simp [cleanKeywords], by simp [cleanKeywords]⟩
  | bool b => exact ⟨by simp [cleanKeywords], by simp [cleanKeywords]⟩
  | num n => exact ⟨by simp [cleanKeywords], by simp [cleanKeywords]⟩
  | str s => exact ⟨by simp [cleanKeywords], by simp [cleanKeywords]⟩
  | obj fs => exact ⟨by simp [cleanKeywords], by simp [cleanKeywords]⟩

theorem cleanSeason_valid (v : JsVal) : cleanSeason v ∈ validSeasons := by
  cases v with
  | str s =>
    show (if validSeasons.contains s = true then s else allSeason) ∈ validSeasons
    by_cases hc : validSeasons.contains s
    · rw [if_pos hc]
      exact List.elem_iff.mp hc
    · rw [if_neg hc]
      decide
  | undefined => decide
  | null => decide
  | bool b => exact (by decide : allSeason ∈ validSeasons)
  | num n => exact (by decide : allSeason ∈ validSeasons)
  | arr xs => exact (by decide : allSeason ∈ validSeasons)
  | obj fs => exact (by decide : allSeason ∈ validSeasons)

theorem cleanSeason_default {v : JsVal}
    (h : ¬∃ s, v = .str s ∧ s ∈ validSeasons) : cleanSeason v = allSeason := by
  cases v with
  | str s =>
    show (if validSeasons.contains s = true then s else allSeason) = allSeason
    rw [if_neg]
    intro hc
    exact h ⟨s, rfl, List.elem_iff.mp hc⟩
  | undefined => rfl
  | null => rfl
  | bool b => rfl
  | num n => rfl
  | arr xs => rfl
  | obj fs => rfl

theorem filteredBestFor_props (v : JsVal) :
    (filteredBestFor v).length ≤ 5 ∧
      ∀ b ∈ filteredBestFor v, b ∈ validBestFor := by
  cases v with
  | arr xs =>
    unfold filteredBestFor
    refine ⟨List.length_take_le .., ?_⟩
    intro b hb
    have hb' := List.mem_of_mem_take hb
    rw [List.mem_map] at hb'
    obtain ⟨x, hx, hxb⟩ := hb'
    rw [List.mem_filter] at hx
    have hk := hx.2
    unfold bestForKeep at hk
    cases x with
    | str s =>
      rw [← hxb]
      exact List.elem_iff.mp hk
    | undefined => simp at hk
    | null => simp at hk
    | bool c => simp at hk
    | num n => simp at hk
    | arr ys => simp at hk
    | obj fs => simp at hk
  | undefined => exact ⟨by simp [filteredBestFor], by simp [filteredBestFor]⟩
  | null => exact ⟨by simp [filteredBestFor], by simp [filteredBestFor]⟩
  | bool b => exact ⟨by simp [filteredBestFor], by simp [filteredBestFor]⟩
  | num n => exact ⟨by simp [filteredBestFor], by simp [filteredBestFor]⟩
  | str s => exact ⟨by simp [filteredBestFor], by simp [filteredBestFor]⟩
  | obj fs => exact ⟨by simp [filteredBestFor], by simp [filteredBestFor]⟩

theorem cleanBestFor_bounds (v : JsVal) :
    cleanBestFor v ≠ [] ∧ (cleanBestFor v).length ≤ 5 ∧
      ∀ b ∈ cleanBestFor v, b ∈ validBestFor := by
  unfold cleanBestFor
  obtain ⟨hlen, hmem⟩ := filteredBestFor_props v
  by_cases he : (filteredBestFor v).isEmpty
  · rw [if_pos he]
    refine ⟨by simp, by simp, ?_⟩
    intro b hb
    rw [List.mem_singleton] at hb
    rw [hb]
    decide
  · rw [if_neg he]
    refine ⟨?_, hlen, hmem⟩
    intro hnil
    rw [hnil] at he
    simp at he

theorem validateMetadata_some {v : JsVal} {pm : ProductMetadata}
    (h : validateMetadata v = some pm) :
    isObjectNonNull v = true ∧
      pm = ⟨cleanKeywords (jsField v "keywords".data),
            cleanSeason (jsField v "season".data),
            cleanBestFor (jsField v "bestFor".data)⟩ := by
  unfold validateMetadata at h
  by_cases ho : isObjectNonNull v
  · rw [if_pos ho] at h
    exact ⟨ho, (Option.some.inj h).symm⟩
  · rw [if_neg ho] at h
    exact absurd h (by simp)

/-! ## Round-trip (idempotence) lemmas for the validation step -/

/-- Re-encoding of validated metadata as the JSON object shape the
validation step consumes (`{keywords, season, bestFor}`). -/
def encodeMetadata (pm : ProductMetadata) : JsVal :=
  .obj [("keywords".data, .arr (pm.keywords.map .str)),
        ("season".data, .str pm.season),
        ("bestFor".data, .arr (pm.bestFor.map .str))]

theorem cleanKeywords_encode (ks : List (List Char)) (hlen : ks.length ≤ 15)
    (hprops : ∀ k ∈ ks, k ≠ [] ∧ lowerStr k = k ∧ trimChars k = k) :
    cleanKeywords (.arr (ks.map .str)) = ks := by
  show (((ks.map JsVal.str).filter keywordKeep).map keywordClean).take 15 = ks
  have hf : (ks.map JsVal.str).filter keywordKeep = ks.map JsVal.str := by
    rw [List.filter_eq_self]
    intro a ha
    rw [List.mem_map] at ha
    obtain ⟨k, hk, hak⟩ := ha
    obtain ⟨h1, h2, h3⟩ := hprops k hk
    rw [← hak]
    show (isStrVal (.str k) && !(trimChars (strValD (.str k))).isEmpty) = true
    rw [show isStrVal (.str k) = true from rfl,
      show strValD (.str k) = k from rfl, h3]
    simp [h1]
  rw [hf, List.map_map]
  have hm : ks.map (keywordClean ∘ JsVal.str) = ks := by
    have hcong : ∀ k ∈ ks, (keywordClean ∘ JsVal.str) k = id k := by
      intro k hk
      obtain ⟨h1, h2, h3⟩ := hprops k hk
      show keywordClean (.str k) = k
      unfold keywordClean
      rw [show strValD (.str k) = k from rfl, h2, h3]
    rw [List.map_congr_left hcong, List.map_id]
  rw [hm, List.take_of_length_le hlen]

theorem cleanSeason_encode {s : List Char} (h : s ∈ validSeasons) :
    cleanSeason (.str s) = s := by
  show (if validSeasons.contains s = true then s else allSeason) = s
  rw [if_pos (List.elem_iff.mpr h)]

theorem cleanBestFor_encode (bf : List (List Char)) (hne : bf ≠ [])
    (hlen : bf.length ≤ 5) (hmem : ∀ b ∈ bf, b ∈ validBestFor) :
    cleanBestFor (.arr (bf.map .str)) = bf := by
  have hfb : filteredBestFor (.arr (bf.map .str)) = bf := by
    show (((bf.map JsVal.str).filter bestForKeep).map strValD).take 5 = bf
    have hf : (bf.map JsVal.str).filter bestForKeep = bf.map JsVal.str := by
      rw [List.filter_eq_self]
      intro a ha
      rw [List.mem_map] at ha
      obtain ⟨b, hb, hab⟩ := ha
      rw [← hab]
      show validBestFor.contains b = true
      exact List.elem_iff.mpr (hmem b hb)
    rw [hf, List.map_map]
    have hcong : ∀ b ∈ bf, (strValD ∘ JsVal.str) b = id b := fun b _ => rfl
    rw [List.map_congr_left hcong, List.map_id, List.take_of_length_le hlen]
  unfold cleanBestFor
  rw [hfb, if_neg]
  simp [hne]

theorem validateMetadata_encode (ks : List (List Char)) (s : List Char)
    (bf : List (List Char)) (hklen : ks.length ≤ 15)
    (hkprops : ∀ k ∈ ks, k ≠ [] ∧ lowerStr k = k ∧ trimChars k = k)
    (hs : s ∈ validSeasons) (hbne : bf ≠ []) (hblen : bf.length ≤ 5)
    (hbmem : ∀ b ∈ bf, b ∈ validBestFor) :
    validateMetadata (encodeMetadata ⟨ks, s, bf⟩) = some ⟨ks, s, bf⟩ := by
  unfold validateMetadata
  rw [if_pos (show isObjectNonNull (encodeMetadata ⟨ks, s, bf⟩) = true from rfl)]
  have e1 : jsField (encodeMetadata ⟨ks, s, bf⟩) "keywords".data =
      .arr (ks.map .str) := rfl
  have e2 : jsField (encodeMetadata ⟨ks, s, bf⟩) "season".data = .str s := rfl
  have e3 : jsField (encodeMetadata ⟨ks, s, bf⟩) "bestFor".data =
      .arr (bf.map .str) := rfl
  rw [e1, e2, e3, cleanKeywords_encode ks hklen hkprops, cleanSeason_encode hs,
    cleanBestFor_encode bf hbne hblen hbmem]

/-- C3: metadata produced by the per-product generation step always has
at most 15 keywords, each a non-empty lowercased string; a season drawn
from {SUMMER, WINTER, ALL_SEASON}, defaulting to ALL_SEASON whenever
the reply's season is not one of those strings; and a non-empty
`bestFor` of at most 5 values drawn from the fixed enumeration, equal
to [CASUAL] when the filtering leaves it empty. -/
theorem c3_generatedMetadataInvariants (v : JsVal) (pm : ProductMetadata)
    (h : validateMetadata v = some pm) :
    pm.keywords.length ≤ 15 ∧
    (∀ k ∈ pm.keywords, k ≠ [] ∧ lowerStr k = k) ∧
    pm.season ∈ validSeasons ∧
    ((¬∃ s, jsField v "season".data = .str s ∧ s ∈ validSeasons) →
      pm.season = allSeason) ∧
    pm.bestFor ≠ [] ∧ pm.bestFor.length ≤ 5 ∧
    (∀ b ∈ pm.bestFor, b ∈ validBestFor) ∧
    (filteredBestFor (jsField v "bestFor".data) = [] →
      pm.bestFor = [casualTag]) := by
  obtain ⟨ho, hpm⟩ := validateMetadata_some h
  subst hpm
  refine ⟨(cleanKeywords_bounds _).1, ?_, cleanSeason_valid _,
    fun hns => cleanSeason_default hns, (cleanBestFor_bounds _).1,
    (cleanBestFor_bounds _).2.1, (cleanBestFor_bounds _).2.2, ?_⟩
  · intro k hk
    have hp := (cleanKeywords_bounds _).2 k hk
    exact ⟨hp.1, hp.2.1⟩
  · intro hbf
    show cleanBestFor (jsField v "bestFor".data) = [casualTag]
    unfold cleanBestFor
    rw [hbf]
    rfl

/-- Witness for C3 at the concrete reply `{}`: validation succeeds with
empty keywords, the default season and the default bestFor, and the
stated invariants hold of that output. -/
theorem c3_generatedMetadataInvariants_witness :
    validateMetadata (.obj []) = some ⟨[], allSeason, [casualTag]⟩ ∧
      (([] : List (List Char)).length ≤ 15 ∧
       (∀ k ∈ ([] : List (List Char)), k ≠ [] ∧ lowerStr k = k) ∧
       allSeason ∈ validSeasons ∧
       ((¬∃ s, jsField (.obj []) "season".data = .str s ∧ s ∈ validSeasons) →
         allSeason = allSeason) ∧
       ([casualTag] : List (List Char)) ≠ [] ∧
       ([casualTag] : List (List Char)).length ≤ 5 ∧
       (∀ b ∈ ([casualTag] : List (List Char)), b ∈ validBestFor) ∧
       (filteredBestFor (jsField (.obj []) "bestFor".data) = [] →
         ([casualTag] : List (List Char)) = [casualTag])) :=
  ⟨rfl, c3_generatedMetadataInvariants (.obj []) ⟨[], allSeason, [casualTag]⟩ rfl⟩

/-- C10: the keyword/season/bestFor cleaning is idempotent — running
the validation step on the re-encoding of its own output returns that
output unchanged. -/
theorem c10_validationIdempotent (v : JsVal) (pm : ProductMetadata)
    (h : validateMetadata v = some pm) :
    validateMetadata (encodeMetadata pm) = some pm := by
  obtain ⟨ho, hpm⟩ := validateMetadata_some h
  subst hpm
  exact validateMetadata_encode _ _ _ (cleanKeywords_bounds _).1
    (cleanKeywords_bounds _).2 (cleanSeason_valid _) (cleanBestFor_bounds _).1
    (cleanBestFor_bounds _).2.1 (cleanBestFor_bounds _).2.2

/-- Witness for C10 at the concrete reply `{}`. -/
theorem c10_validationIdempotent_witness :
    validateMetadata (.obj []) = some ⟨[], allSeason, [casualTag]⟩ ∧
      validateMetadata (encodeMetadata ⟨[], allSeason, [casualTag]⟩) =
        some ⟨[], allSeason, [casualTag]⟩ :=
  ⟨rfl, c10_validationIdempotent (.obj []) ⟨[], allSeason, [casualTag]⟩ rfl⟩

/-! ## Context-handler lemmas -/

theorem lookupField_setField (fs : List (List Char × JsVal))
    (name : List Char) (v : JsVal) :
    lookupField (setField fs name v) name = some v := by
  induction fs with
  | nil => simp [setField, lookupField]
  | cons kv rest ih =>
    obtain ⟨k, w⟩ := kv
    by_cases hk : k = name
    · simp [setField, lookupField, hk]
    · simp [setField, lookupField, hk, ih]

theorem bodyField_fallbackContext (q : JsVal) :
    bodyField (fallbackContext q) originalQueryKey = some q := rfl

theorem queryCheckFails_str_false {q : List Char} (hne : trimChars q ≠ []) :
    queryCheckFails (.str q) = false := by
  have hq : q ≠ [] := by
    intro h
    rw [h] at hne
    exact hne rfl
  unfold queryCheckFails
  rw [show jsTruthy (.str q) = !q.isEmpty from rfl,
    show isStrVal (.str q) = true from rfl,
    show strValD (.str q) = q from rfl]
  simp [hq, hne]

theorem catchQueryVal_eq {reqBody : JsVal} {q : List Char}
    (hq : jsGetProp reqBody queryKey = some (.str q)) (hqne : q ≠ []) :
    catchQueryVal reqBody = .str q := by
  cases reqBody with
  | undefined => simp [jsGetProp] at hq
  | null => simp [jsGetProp] at hq
  | obj fs => simp [catchQueryVal, optChainGet, hq, jsTruthy, hqne]
  | bool b => simp [jsGetProp] at hq
  | num n => simp [jsGetProp] at hq
  | str s => simp [jsGetProp] at hq
  | arr xs => simp [jsGetProp] at hq

theorem contextTryRun_400 {reqBody qv : JsVal} {apiKey : Option (List Char)}
    {fetched : FetchOutcome} {parseJson : List Char → Option JsVal}
    (hq : jsGetProp reqBody queryKey = some qv)
    (hbad : queryCheckFails qv = true) :
    contextTryRun reqBody apiKey fetched parseJson =
      some ⟨400, some (errBody "Query is required".data)⟩ := by
  simp [contextTryRun, hq, hbad]

/-- Case analysis of the `try` block for a valid query value: it either
throws (`none`) or returns 200 with the fallback context, the
originalQuery-carrying object, or an array reply left unchanged by the
dropped property assignment. -/
theorem contextTryRun_cases {reqBody qv : JsVal} {apiKey : Option (List Char)}
    {fetched : FetchOutcome} {parseJson : List Char → Option JsVal}
    (hq : jsGetProp reqBody queryKey = some qv)
    (hok : queryCheckFails qv = false) :
    contextTryRun reqBody apiKey fetched parseJson = none ∨
    contextTryRun reqBody apiKey fetched parseJson =
      some ⟨200, some (fallbackContext qv)⟩ ∨
    (∃ xs, contextTryRun reqBody apiKey fetched parseJson =
      some ⟨200, some (.arr xs)⟩) ∨
    (∃ fs, contextTryRun reqBody apiKey fetched parseJson =
      some ⟨200, some (.obj (setField fs originalQueryKey qv))⟩) := by
  unfold contextTryRun
  simp only [hq]
  rw [hok]
  cases hkey : keyTruthy apiKey with
  | false => exact Or.inr (Or.inl rfl)
  | true =>
    cases fetched with
    | netThrow => exact Or.inl rfl
    | notOk => exact Or.inr (Or.inl rfl)
    | ok data =>
      cases hc : choiceContent data with
      | none =>
        left
        simp only [contextFetchStage, hc]
        rfl
      | some content =>
        cases hp : parseJson (stripFences content) with
        | none =>
          left
          simp only [contextFetchStage, hc, hp]
          rfl
        | some ctx =>
          cases ctx with
          | undefined => left; simp only [contextFetchStage, hc, hp, setPropSer]; rfl
          | null => left; simp only [contextFetchStage, hc, hp, setPropSer]; rfl
          | bool b => left; simp only [contextFetchStage, hc, hp, setPropSer]; rfl
          | num n => left; simp only [contextFetchStage, hc, hp, setPropSer]; rfl
          | str s => left; simp only [contextFetchStage, hc, hp, setPropSer]; rfl
          | arr xs =>
            right; right; left
            exact ⟨xs, by simp only [contextFetchStage, hc, hp, setPropSer]; rfl⟩
          | obj fs =>
            right; right; right
            exact ⟨fs, by simp only [contextFetchStage, hc, hp, setPropSer]; rfl⟩

/-! ## Claims about the context handler -/

/-- C1 (amended): for every POST with a non-empty text query, the
context handler answers HTTP 200 — never a 5xx — on the happy path and
on every failure path, and the response body carries
`originalQuery = query` except in one happy-path corner: when the model
reply parses to a JSON array, the property assignment
`context.originalQuery = query` adds a non-index property that the JSON
serialization of `res.json` drops, so the 200 body is the bare array. -/
theorem c1_contextAlways200 (method : List Char) (reqBody : JsVal)
    (apiKey : Option (List Char)) (fetched : FetchOutcome)
    (parseJson : List Char → Option JsVal) (q : List Char)
    (hm : method = postM)
    (hq : jsGetProp reqBody queryKey = some (.str q))
    (hne : trimChars q ≠ []) :
    (contextHandler method reqBody apiKey fetched parseJson).status = 200 ∧
    ((∃ xs, (contextHandler method reqBody apiKey fetched parseJson).body =
        some (.arr xs)) ∨
     (∃ v, (contextHandler method reqBody apiKey fetched parseJson).body =
        some v ∧ bodyField v originalQueryKey = some (.str q))) := by
  subst hm
  have hqne : q ≠ [] := fun h => hne (by rw [h]; rfl)
  have hok := queryCheckFails_str_false hne
  have hcatch := catchQueryVal_eq hq hqne
  have hred : contextHandler postM reqBody apiKey fetched parseJson =
      (match contextTryRun reqBody apiKey fetched parseJson with
       | some r => r
       | none => ⟨200, some (fallbackContext (catchQueryVal reqBody))⟩) := rfl
  rcases contextTryRun_cases hq hok with h | h | ⟨xs, h⟩ | ⟨fs, h⟩
  · rw [hred, h, hcatch]
    exact ⟨rfl, Or.inr ⟨fallbackContext (.str q), rfl,
      bodyField_fallbackContext _⟩⟩
  · rw [hred, h]
    exact ⟨rfl, Or.inr ⟨fallbackContext (.str q), rfl,
      bodyField_fallbackContext _⟩⟩
  · rw [hred, h]
    exact ⟨rfl, Or.inl ⟨xs, rfl⟩⟩
  · rw [hred, h]
    refine ⟨rfl, Or.inr ⟨_, rfl, ?_⟩⟩
    show bodyField (.obj (setField fs originalQueryKey (.str q)))
      originalQueryKey = some (.str q)
    unfold bodyField
    exact lookupField_setField fs originalQueryKey (.str q)

/-- Completion-API response whose model reply is the text "[]". -/
def exContextData : JsVal :=
  .obj [("choices".data, .arr [.obj [("message".data,
    .obj [("content".data, .str "[]".data)])]])]

/-- `JSON.parse` oracle under which the text "[]" parses to the empty
array. -/
def exContextParse : List Char → Option JsVal :=
  fun s => if s = "[]".data then some (.arr []) else none

/-- C1 counterexample: with the non-empty query "hi" and a parseable
model reply `[]` (a JSON array), the handler returns HTTP 200 whose
body is that array, with no `originalQuery` field at all — so the body's
`originalQuery` does not equal the submitted query on this happy path. -/
theorem c1_arrayReplyCounterexample :
    contextHandler postM (.obj [(queryKey, .str "hi".data)])
        (some "k".data) (.ok exContextData) exContextParse =
      ⟨200, some (.arr [])⟩ ∧
    bodyField (.arr []) originalQueryKey = none :=
  ⟨rfl, rfl⟩

/-- Witness for C1 on the missing-key failure path with query "hi". -/
theorem c1_contextAlways200_witness :
    "POST".data = postM ∧
    jsGetProp (.obj [(queryKey, .str "hi".data)]) queryKey =
      some (.str "hi".data) ∧
    trimChars "hi".data ≠ [] ∧
    ((contextHandler "POST".data (.obj [(queryKey, .str "hi".data)]) none
        .notOk (fun _ => none)).status = 200 ∧
     ((∃ xs, (contextHandler "POST".data (.obj [(queryKey, .str "hi".data)])
         none .notOk (fun _ => none)).body = some (.arr xs)) ∨
      (∃ v, (contextHandler "POST".data (.obj [(queryKey, .str "hi".data)])
         none .notOk (fun _ => none)).body = some v ∧
         bodyField v originalQueryKey = some (.str "hi".data)))) :=
  ⟨rfl, rfl, by decide, c1_contextAlways200 "POST".data
    (.obj [(queryKey, .str "hi".data)]) none .notOk (fun _ => none)
    "hi".data rfl rfl (by decide)⟩

/-- C2 (documents the divergence): an OPTIONS request to the context
handler is answered 405 with an error body — its preflight branch is
dead code because the source checks `req.method !== 'POST'` first —
while the enrichment handler, which checks OPTIONS before the method
guard, answers the claimed 200 with an empty body; non-POST,
non-OPTIONS methods (here GET) get 405 from both handlers. -/
theorem c2_optionsDispatchDivergence (reqBody : JsVal)
    (apiKey : Option (List Char)) (fetched : FetchOutcome)
    (parseJson : List Char → Option JsVal) (dryRun : Bool)
    (productId : Option (List Char)) (skip : Nat) (limit : Option Nat)
    (store : List Product) (genFetch : Product → GenFetch)
    (upd : Product → Option (List Char)) (timeUp : Nat → Bool) :
    contextHandler optionsM reqBody apiKey fetched parseJson =
      ⟨405, some (errBody "Method not allowed".data)⟩ ∧
    (enrichHandler optionsM 5 (Nat.succ_pos 4) dryRun productId skip limit
        apiKey store genFetch parseJson upd timeUp).1 = .preflight ∧
    statusOf .preflight = 200 ∧
    contextHandler "GET".data reqBody apiKey fetched parseJson =
      ⟨405, some (errBody "Method not allowed".data)⟩ ∧
    (enrichHandler "GET".data 5 (Nat.succ_pos 4) dryRun productId skip limit
        apiKey store genFetch parseJson upd timeUp).1 = .methodNotAllowed ∧
    statusOf .methodNotAllowed = 405 :=
  ⟨rfl, rfl, rfl, rfl, rfl, rfl⟩

/-- C7 counterexample: a POST whose body is `null` — a body that
certainly lacks a query — is answered 200, not 400: the destructuring
`const { query } = req.body` throws before the validation check ever
runs, and the catch path returns the degraded 200 context. -/
theorem c7_nullBodyCounterexample :
    (contextHandler postM .null none .notOk (fun _ => none)).status = 200 ∧
    contextHandler postM .null none .notOk (fun _ => none) =
      ⟨200, some (fallbackContext (.str []))⟩ :=
  ⟨rfl, rfl⟩

/-- C7 (amended): for every POST whose body is not `null`/`undefined`
(so destructuring yields the query value) and whose query fails the
source's validity check — absent, falsy, non-string, or trimming to the
empty string — the handler responds HTTP 400. -/
theorem c7_invalidQuery400 (reqBody qv : JsVal) (apiKey : Option (List Char))
    (fetched : FetchOutcome) (parseJson : List Char → Option JsVal)
    (hq : jsGetProp reqBody queryKey = some qv)
    (hbad : queryCheckFails qv = true) :
    (contextHandler postM reqBody apiKey fetched parseJson).status = 400 := by
  have hred : contextHandler postM reqBody apiKey fetched parseJson =
      (match contextTryRun reqBody apiKey fetched parseJson with
       | some r => r
       | none => ⟨200, some (fallbackContext (catchQueryVal reqBody))⟩) := rfl
  rw [hred, contextTryRun_400 hq hbad]

/-- Witness for C7 at the empty-object body (query absent). -/
theorem c7_invalidQuery400_witness :
    jsGetProp (.obj []) queryKey = some .undefined ∧
    queryCheckFails .undefined = true ∧
    (contextHandler postM (.obj []) none .notOk (fun _ => none)).status = 400 :=
  ⟨rfl, rfl, c7_invalidQuery400 (.obj []) .undefined none .notOk (fun _ => none)
    rfl rfl⟩

/-! ## Enrichment-loop invariants -/

/-- The store write a successful generation issues for product `p`
(`none` when generation throws). -/
def writeOf (gen : Product → Except (List Char) ProductMetadata)
    (p : Product) : Option WriteRec :=
  match gen p with
  | .ok md => some (mkWriteRec p md)
  | .error _ => none

theorem processOne_attempted (d : Bool) (g : Product → Except (List Char) ProductMetadata)
    (u : Product → Option (List Char)) (acc : RunAcc) (p : Product) :
    (processOne d g u acc p).attempted = acc.attempted ++ [p] := by
  unfold processOne
  cases g p with
  | error m => rfl
  | ok md =>
    cases d with
    | true => rfl
    | false => cases u p <;> rfl

theorem processOne_writes (d : Bool) (g : Product → Except (List Char) ProductMetadata)
    (u : Product → Option (List Char)) (acc : RunAcc) (p : Product) :
    (processOne d g u acc p).writes =
      acc.writes ++ (if d then [] else (writeOf g p).toList) := by
  unfold processOne writeOf
  cases g p with
  | error m => cases d <;> simp
  | ok md =>
    cases d with
    | true => simp
    | false => cases u p <;> simp

theorem processOne_count (d : Bool) (g : Product → Except (List Char) ProductMetadata)
    (u : Product → Option (List Char)) (acc : RunAcc) (p : Product) :
    (processOne d g u acc p).processed + (processOne d g u acc p).errors.length =
      acc.processed + acc.errors.length + 1 := by
  unfold processOne
  cases g p with
  | error m => simp +arith
  | ok md =>
    cases d with
    | true => simp +arith
    | false =>
      cases u p with
      | none => simp +arith
      | some m => simp +arith

theorem foldl_processOne_attempted (d : Bool)
    (g : Product → Except (List Char) ProductMetadata)
    (u : Product → Option (List Char)) (l : List Product) :
    ∀ acc : RunAcc,
      (l.foldl (processOne d g u) acc).attempted = acc.attempted ++ l := by
  induction l with
  | nil => intro acc; simp
  | cons p t ih =>
    intro acc
    rw [List.foldl_cons, ih, processOne_attempted]
    simp

theorem foldl_processOne_writes (d : Bool)
    (g : Product → Except (List Char) ProductMetadata)
    (u : Product → Option (List Char)) (l : List Product) :
    ∀ acc : RunAcc,
      (l.foldl (processOne d g u) acc).writes =
        acc.writes ++ (if d then [] else l.filterMap (writeOf g)) := by
  induction l with
  | nil => intro acc; cases d <;> simp
  | cons p t ih =>
    intro acc
    rw [List.foldl_cons, ih, processOne_writes]
    cases d with
    | true => simp
    | false =>
      rw [List.filterMap_cons]
      cases writeOf g p <;> simp

theorem foldl_processOne_count (d : Bool)
    (g : Product → Except (List Char) ProductMetadata)
    (u : Product → Option (List Char)) (l : List Product) :
    ∀ acc : RunAcc,
      (l.foldl (processOne d g u) acc).processed +
          (l.foldl (processOne d g u) acc).errors.length =
        acc.processed + acc.errors.length + l.length := by
  induction l with
  | nil => intro acc; simp
  | cons p t ih =>
    intro acc
    rw [List.foldl_cons, ih, processOne_count]
    simp +arith

theorem chunksPos_foldl_aux {α β : Type} (f : β → α → β) (bs : Nat)
    (hbs : 0 < bs) :
    ∀ (n : Nat) (l : List α), l.length ≤ n → ∀ acc : β,
      (chunksPos bs hbs l).foldl (fun a w => w.foldl f a) acc =
        l.foldl f acc := by
  intro n
  induction n with
  | zero =>
    intro l hl acc
    have hnil : l = [] := List.eq_nil_of_length_eq_zero (Nat.le_zero.mp hl)
    subst hnil
    rw [chunksPos]
    rfl
  | succ n ih =>
    intro l hl acc
    cases l with
    | nil =>
      rw [chunksPos]
      rfl
    | cons x xs =>
      rw [chunksPos, List.foldl_cons,
        ih ((x :: xs).drop bs)
          (by simp only [List.length_drop, List.length_cons] at hl ⊢; omega),
        ← List.foldl_append, List.take_append_drop]

theorem processBatch_eq (d : Bool)
    (g : Product → Except (List Char) ProductMetadata)
    (u : Product → Option (List Char)) (acc : RunAcc) (b : List Product) :
    processBatch d g u acc b = b.foldl (processOne d g u) acc := by
  unfold processBatch
  exact chunksPos_foldl_aux (processOne d g u) 3 (by omega) b.length b
    (le_refl _) acc

theorem enrichLoop_finished_aux (ps : List Product) (bs : Nat) (hbs : 0 < bs)
    (t : Nat → Bool) (d : Bool)
    (g : Product → Except (List Char) ProductMetadata)
    (u : Product → Option (List Char)) :
    ∀ (fuel i : Nat), ps.length - i ≤ fuel → ∀ (acc acc' : RunAcc),
      enrichLoop ps bs hbs t d g u i acc = .finished acc' →
      acc' = (ps.drop i).foldl (processOne d g u) acc := by
  intro fuel
  induction fuel with
  | zero =>
    intro i hle acc acc' h
    rw [enrichLoop, if_neg (by omega)] at h
    injection h with h2
    rw [← h2, List.drop_eq_nil_of_le (by omega)]
    rfl
  | succ fuel ih =>
    intro i hle acc acc' h
    rw [enrichLoop] at h
    by_cases hi : i < ps.length
    · rw [if_pos hi] at h
      by_cases ht : t i = true
      · rw [if_pos ht] at h
        exact absurd h (by simp)
      · rw [if_neg ht] at h
        rw [ih (i + bs) (by omega) _ _ h, processBatch_eq]
        rw [show ps.drop (i + bs) = (ps.drop i).drop bs from
          (List.drop_drop bs i ps).symm]
        rw [← List.foldl_append, List.take_append_drop]
    · rw [if_neg hi] at h
      injection h with h2
      rw [← h2, List.drop_eq_nil_of_le (by omega)]
      rfl

theorem enrichLoop_finished {ps : List Product} {bs : Nat} {hbs : 0 < bs}
    {t : Nat → Bool} {d : Bool}
    {g : Product → Except (List Char) ProductMetadata}
    {u : Product → Option (List Char)} {acc acc' : RunAcc}
    (h : enrichLoop ps bs hbs t d g u 0 acc = .finished acc') :
    acc' = ps.foldl (processOne d g u) acc := by
  have := enrichLoop_finished_aux ps bs hbs t d g u ps.length 0
    (by omega) acc acc' h
  rw [List.drop_zero] at this
  exact this

theorem enrichLoop_stopped_aux (ps : List Product) (bs : Nat) (hbs : 0 < bs)
    (t : Nat → Bool) (d : Bool)
    (g : Product → Except (List Char) ProductMetadata)
    (u : Product → Option (List Char)) :
    ∀ (fuel i : Nat), ps.length - i ≤ fuel → ∀ (acc acc' : RunAcc) (j : Nat),
      enrichLoop ps bs hbs t d g u i acc = .stopped acc' j →
      i ≤ j ∧ bs ∣ (j - i) ∧ j < ps.length ∧ t j = true ∧
        acc' = ((ps.drop i).take (j - i)).foldl (processOne d g u) acc := by
  intro fuel
  induction fuel with
  | zero =>
    intro i hle acc acc' j h
    rw [enrichLoop, if_neg (by omega)] at h
    exact absurd h (by simp)
  | succ fuel ih =>
    intro i hle acc acc' j h
    rw [enrichLoop] at h
    by_cases hi : i < ps.length
    · rw [if_pos hi] at h
      by_cases ht : t i = true
      · rw [if_pos ht] at h
        injection h with h1 h2
        subst h2
        refine ⟨le_refl i, by simp, hi, ht, ?_⟩
        rw [Nat.sub_self, List.take_zero, List.foldl_nil, h1]
      · rw [if_neg ht] at h
        obtain ⟨hij, hdvd, hjlen, htj, hacc⟩ := ih (i + bs) (by omega) _ _ _ h
        refine ⟨by omega, ?_, hjlen, htj, ?_⟩
        · have hji : j - i = (j - (i + bs)) + bs := by omega
          rw [hji]
          exact Nat.dvd_add hdvd (dvd_refl bs)
        · rw [hacc, processBatch_eq]
          have hji : j - i = bs + (j - (i + bs)) := by omega
          rw [hji, List.take_add, List.foldl_append]
          rw [show (ps.drop i).drop bs = ps.drop (i + bs) from
            List.drop_drop bs i ps]
    · rw [if_neg hi] at h
      exact absurd h (by simp)

theorem enrichLoop_stopped {ps : List Product} {bs : Nat} {hbs : 0 < bs}
    {t : Nat → Bool} {d : Bool}
    {g : Product → Except (List Char) ProductMetadata}
    {u : Product → Option (List Char)} {acc acc' : RunAcc} {j : Nat}
    (h : enrichLoop ps bs hbs t d g u 0 acc = .stopped acc' j) :
    bs ∣ j ∧ j < ps.length ∧ t j = true ∧
      acc' = (ps.take j).foldl (processOne d g u) acc := by
  obtain ⟨_, hdvd, hjlen, htj, hacc⟩ :=
    enrichLoop_stopped_aux ps bs hbs t d g u ps.length 0 (by omega) acc acc' j h
  rw [List.drop_zero, Nat.sub_zero] at hacc
  rw [Nat.sub_zero] at hdvd
  exact ⟨hdvd, hjlen, htj, hacc⟩

theorem singleStep_attempted (d : Bool)
    (g : Product → Except (List Char) ProductMetadata)
    (u : Product → Option (List Char)) (acc : SingleAcc) (p : Product) :
    (singleStep d g u acc p).attempted = acc.attempted ++ [p] := by
  unfold singleStep
  cases g p with
  | error m => rfl
  | ok md =>
    cases d with
    | true => rfl
    | false => cases u p <;> rfl

theorem singleStep_writes (d : Bool)
    (g : Product → Except (List Char) ProductMetadata)
    (u : Product → Option (List Char)) (acc : SingleAcc) (p : Product) :
    (singleStep d g u acc p).writes =
      acc.writes ++ (if d then [] else (writeOf g p).toList) := by
  unfold singleStep writeOf
  cases g p with
  | error m => cases d <;> simp
  | ok md =>
    cases d with
    | true => simp
    | false => cases u p <;> simp

theorem foldl_singleStep_attempted (d : Bool)
    (g : Product → Except (List Char) ProductMetadata)
    (u : Product → Option (List Char)) (l : List Product) :
    ∀ acc : SingleAcc,
      (l.foldl (singleStep d g u) acc).attempted = acc.attempted ++ l := by
  induction l with
  | nil => intro acc; simp
  | cons p t ih =>
    intro acc
    rw [List.foldl_cons, ih, singleStep_attempted]
    simp

theorem foldl_singleStep_writes (d : Bool)
    (g : Product → Except (List Char) ProductMetadata)
    (u : Product → Option (List Char)) (l : List Product) :
    ∀ acc : SingleAcc,
      (l.foldl (singleStep d g u) acc).writes =
        acc.writes ++ (if d then [] else l.filterMap (writeOf g)) := by
  induction l with
  | nil => intro acc; cases d <;> simp
  | cons p t ih =>
    intro acc
    rw [List.foldl_cons, ih, singleStep_writes]
    cases d with
    | true => simp
    | false =>
      rw [List.filterMap_cons]
      cases writeOf g p <;> simp

theorem processProductsRun_log (d : Bool)
    (g : Product → Except (List Char) ProductMetadata)
    (u : Product → Option (List Char)) (l : List Product) :
    (processProductsRun d g u l).2.attempted = l ∧
    (processProductsRun d g u l).2.writes =
      if d then [] else l.filterMap (writeOf g) := by
  unfold processProductsRun
  constructor
  · show (l.foldl (singleStep d g u) ⟨[], [], [], []⟩).attempted = l
    rw [foldl_singleStep_attempted]
    rfl
  · show (l.foldl (singleStep d g u) ⟨[], [], [], []⟩).writes = _
    rw [foldl_singleStep_writes]
    rfl

/-! ## Reductions of the enrichment handler to its three POST paths -/

theorem enrichHandler_noKey (method : List Char) (batchSize : Nat)
    (hbs : 0 < batchSize) (dryRun : Bool) (productId : Option (List Char))
    (skip : Nat) (limit : Option Nat) (apiKey : Option (List Char))
    (store : List Product) (genFetch : Product → GenFetch)
    (parseJson : List Char → Option JsVal) (upd : Product → Option (List Char))
    (timeUp : Nat → Bool) (hm : method = postM)
    (hk : keyTruthy apiKey = false) :
    enrichHandler method batchSize hbs dryRun productId skip limit apiKey
        store genFetch parseJson upd timeUp =
      (.serverError "OPENAI_API_KEY not configured".data, emptyLog) := by
  subst hm
  unfold enrichHandler
  rw [if_neg (show ¬(postM = optionsM) by decide),
    if_neg (show ¬(postM ≠ postM) by simp), hk]
  rfl

theorem enrichHandler_pid (method : List Char) (batchSize : Nat)
    (hbs : 0 < batchSize) (dryRun : Bool) (productId : Option (List Char))
    (skip : Nat) (limit : Option Nat) (apiKey : Option (List Char))
    (store : List Product) (genFetch : Product → GenFetch)
    (parseJson : List Char → Option JsVal) (upd : Product → Option (List Char))
    (timeUp : Nat → Bool) (pid : List Char) (hm : method = postM)
    (hk : keyTruthy apiKey = true) (hp : pidGiven productId = some pid) :
    enrichHandler method batchSize hbs dryRun productId skip limit apiKey
        store genFetch parseJson upd timeUp =
      (match store.find? (fun p => p.id == pid) with
       | none => (.notFound, emptyLog)
       | some p => processProductsRun dryRun
           (fun q => generateKeywordsRun (genFetch q) parseJson) upd [p]) := by
  subst hm
  unfold enrichHandler
  rw [if_neg (show ¬(postM = optionsM) by decide),
    if_neg (show ¬(postM ≠ postM) by simp), hk,
    if_neg (show ¬((!true) = true) by decide), hp]

theorem enrichHandler_batch (method : List Char) (batchSize : Nat)
    (hbs : 0 < batchSize) (dryRun : Bool) (productId : Option (List Char))
    (skip : Nat) (limit : Option Nat) (apiKey : Option (List Char))
    (store : List Product) (genFetch : Product → GenFetch)
    (parseJson : List Char → Option JsVal) (upd : Product → Option (List Char))
    (timeUp : Nat → Bool) (hm : method = postM)
    (hk : keyTruthy apiKey = true) (hp : pidGiven productId = none) :
    enrichHandler method batchSize hbs dryRun productId skip limit apiKey
        store genFetch parseJson upd timeUp =
      (match enrichLoop (applySkipLimit store skip limit) batchSize hbs timeUp
          dryRun (fun p => generateKeywordsRun (genFetch p) parseJson) upd 0
          initAcc with
       | .finished acc =>
         (.batchDone ⟨(applySkipLimit store skip limit).length, acc.processed,
            acc.updated, acc.errors, dryRun⟩, acc.log)
       | .stopped acc i =>
         (.batchStopped ⟨(applySkipLimit store skip limit).length,
            acc.processed, acc.updated, acc.errors, dryRun⟩ i, acc.log)) := by
  subst hm
  unfold enrichHandler
  rw [if_neg (show ¬(postM = optionsM) by decide),
    if_neg (show ¬(postM ≠ postM) by simp), hk,
    if_neg (show ¬((!true) = true) by decide), hp]

theorem applySkipLimit_resume (ps : List Product) (j : Nat) :
    applySkipLimit ps j none = ps.drop j := by
  show (if 0 < j then ps.drop j else ps) = ps.drop j
  by_cases hj : 0 < j
  · rw [if_pos hj]
  · rw [if_neg hj, show j = 0 from by omega, List.drop_zero]

/-! ## Claims about the enrichment handler -/

/-- C4: the dry-run flag exactly controls store writes — a dry run
issues no write for any product regardless of per-product outcomes,
and a non-dry run issues exactly one update per attempted product
whose metadata generation succeeds and none for a product whose
generation throws; this covers the batched path, the single-product
path and every early-exit response. -/
theorem c4_writeDiscipline (method : List Char) (batchSize : Nat)
    (hbs : 0 < batchSize) (dryRun : Bool) (productId : Option (List Char))
    (skip : Nat) (limit : Option Nat) (apiKey : Option (List Char))
    (store : List Product) (genFetch : Product → GenFetch)
    (parseJson : List Char → Option JsVal) (upd : Product → Option (List Char))
    (timeUp : Nat → Bool) :
    (enrichHandler method batchSize hbs dryRun productId skip limit apiKey
        store genFetch parseJson upd timeUp).2.writes =
      if dryRun then []
      else (enrichHandler method batchSize hbs dryRun productId skip limit
          apiKey store genFetch parseJson upd timeUp).2.attempted.filterMap
        (writeOf (fun p => generateKeywordsRun (genFetch p) parseJson)) := by
  by_cases h1 : method = optionsM
  · subst h1
    cases dryRun <;> rfl
  · by_cases h2 : method = postM
    · subst h2
      cases hk : keyTruthy apiKey with
      | false =>
        rw [enrichHandler_noKey postM batchSize hbs dryRun productId skip limit
          apiKey store genFetch parseJson upd timeUp rfl hk]
        cases dryRun <;> rfl
      | true =>
        cases hp : pidGiven productId with
        | some pid =>
          rw [enrichHandler_pid postM batchSize hbs dryRun productId skip limit
            apiKey store genFetch parseJson upd timeUp pid rfl hk hp]
          cases hf : store.find? (fun p => p.id == pid) with
          | none => cases dryRun <;> rfl
          | some p =>
            have hlog := processProductsRun_log dryRun
              (fun q => generateKeywordsRun (genFetch q) parseJson) upd [p]
            show (processProductsRun dryRun
                (fun q => generateKeywordsRun (genFetch q) parseJson) upd
                [p]).2.writes =
              if dryRun then []
              else (processProductsRun dryRun
                  (fun q => generateKeywordsRun (genFetch q) parseJson) upd
                  [p]).2.attempted.filterMap
                (writeOf (fun q => generateKeywordsRun (genFetch q) parseJson))
            rw [hlog.1, hlog.2]
        | none =>
          rw [enrichHandler_batch postM batchSize hbs dryRun productId skip
            limit apiKey store genFetch parseJson upd timeUp rfl hk hp]
          cases hl : enrichLoop (applySkipLimit store skip limit) batchSize hbs
              timeUp dryRun
              (fun p => generateKeywordsRun (genFetch p) parseJson) upd 0
              initAcc with
          | finished acc =>
            show acc.writes =
              if dryRun then []
              else acc.attempted.filterMap
                (writeOf (fun p => generateKeywordsRun (genFetch p) parseJson))
            have he := enrichLoop_finished hl
            rw [he, foldl_processOne_writes, foldl_processOne_attempted]
            cases dryRun <;> simp [initAcc]
          | stopped acc j =>
            show acc.writes =
              if dryRun then []
              else acc.attempted.filterMap
                (writeOf (fun p => generateKeywordsRun (genFetch p) parseJson))
            have hs := (enrichLoop_stopped hl).2.2.2
            rw [hs, foldl_processOne_writes, foldl_processOne_attempted]
            cases dryRun <;> simp [initAcc]
    · have h2' : method ≠ postM := h2
      unfold enrichHandler
      rw [if_neg h1, if_pos h2']
      cases dryRun <;> rfl

/-- C5: on the batched path (POST, key present, no productId), the
returned processed count plus the length of the returned errors list
equals the number of products attempted before the run either finishes
the candidate list or stops on the time budget. -/
theorem c5_processedPlusErrors (method : List Char) (batchSize : Nat)
    (hbs : 0 < batchSize) (dryRun : Bool) (productId : Option (List Char))
    (skip : Nat) (limit : Option Nat) (apiKey : Option (List Char))
    (store : List Product) (genFetch : Product → GenFetch)
    (parseJson : List Char → Option JsVal) (upd : Product → Option (List Char))
    (timeUp : Nat → Bool) (hm : method = postM) (hk : keyTruthy apiKey = true)
    (hp : pidGiven productId = none) :
    ∃ res : BatchResults,
      ((enrichHandler method batchSize hbs dryRun productId skip limit apiKey
          store genFetch parseJson upd timeUp).1 = .batchDone res ∨
       ∃ j, (enrichHandler method batchSize hbs dryRun productId skip limit
          apiKey store genFetch parseJson upd timeUp).1 =
            .batchStopped res j) ∧
      res.processed + res.errors.length =
        (enrichHandler method batchSize hbs dryRun productId skip limit apiKey
          store genFetch parseJson upd timeUp).2.attempted.length := by
  rw [enrichHandler_batch method batchSize hbs dryRun productId skip limit
    apiKey store genFetch parseJson upd timeUp hm hk hp]
  cases hl : enrichLoop (applySkipLimit store skip limit) batchSize hbs timeUp
      dryRun (fun p => generateKeywordsRun (genFetch p) parseJson) upd 0
      initAcc with
  | finished acc =>
    refine ⟨⟨(applySkipLimit store skip limit).length, acc.processed,
      acc.updated, acc.errors, dryRun⟩, Or.inl rfl, ?_⟩
    show acc.processed + acc.errors.length = acc.attempted.length
    have he := enrichLoop_finished hl
    rw [he, foldl_processOne_count, foldl_processOne_attempted]
    simp [initAcc]
  | stopped acc j =>
    refine ⟨⟨(applySkipLimit store skip limit).length, acc.processed,
      acc.updated, acc.errors, dryRun⟩, Or.inr ⟨j, rfl⟩, ?_⟩
    show acc.processed + acc.errors.length = acc.attempted.length
    have hs := (enrichLoop_stopped hl).2.2.2
    rw [hs, foldl_processOne_count, foldl_processOne_attempted]
    simp [initAcc]

/-- C9: whenever the batched path returns a partial-completion
response, the attempted products are exactly the candidates strictly
below `nextBatchStart` (none at or above it was attempted), and
`nextBatchStart` is a multiple of the batch size and lies strictly
inside the candidate list. -/
theorem c9_stoppedPrefix (method : List Char) (batchSize : Nat)
    (hbs : 0 < batchSize) (dryRun : Bool) (productId : Option (List Char))
    (skip : Nat) (limit : Option Nat) (apiKey : Option (List Char))
    (store : List Product) (genFetch : Product → GenFetch)
    (parseJson : List Char → Option JsVal) (upd : Product → Option (List Char))
    (timeUp : Nat → Bool) (res : BatchResults) (j : Nat)
    (hm : method = postM) (hk : keyTruthy apiKey = true)
    (hp : pidGiven productId = none)
    (hstop : (enrichHandler method batchSize hbs dryRun productId skip limit
      apiKey store genFetch parseJson upd timeUp).1 = .batchStopped res j) :
    (enrichHandler method batchSize hbs dryRun productId skip limit apiKey
        store genFetch parseJson upd timeUp).2.attempted =
      (applySkipLimit store skip limit).take j ∧
    batchSize ∣ j ∧ j < (applySkipLimit store skip limit).length := by
  rw [enrichHandler_batch method batchSize hbs dryRun productId skip limit
    apiKey store genFetch parseJson upd timeUp hm hk hp] at hstop ⊢
  cases hl : enrichLoop (applySkipLimit store skip limit) batchSize hbs timeUp
      dryRun (fun p => generateKeywordsRun (genFetch p) parseJson) upd 0
      initAcc with
  | finished acc =>
    rw [hl] at hstop
    exact absurd hstop (by simp)
  | stopped acc j' =>
    rw [hl] at hstop
    have hstop' : EnrichResp.batchStopped
        ⟨(applySkipLimit store skip limit).length, acc.processed, acc.updated,
         acc.errors, dryRun⟩ j' = .batchStopped res j := hstop
    injection hstop' with hres hj
    obtain ⟨hdvd, hlt, _, hacc⟩ := enrichLoop_stopped hl
    subst hj
    refine ⟨?_, hdvd, hlt⟩
    show acc.attempted = (applySkipLimit store skip limit).take j'
    rw [hacc, foldl_processOne_attempted]
    simp [initAcc]

/-- C6: when a batched run stops early at `nextBatchStart = j`, its
attempted products are exactly the first `j` candidates, and a
follow-up call over the same candidate set with `skip = j` (and no
limit) gets exactly the not-yet-attempted candidates: if that follow-up
runs to completion, the two runs together attempt every candidate
exactly once — nothing is reprocessed and nothing is skipped. -/
theorem c6_resumeExact (batchSize : Nat) (hbs : 0 < batchSize) (dryRun : Bool)
    (skip : Nat) (limit : Option Nat) (apiKey : Option (List Char))
    (store : List Product) (genFetch : Product → GenFetch)
    (parseJson : List Char → Option JsVal) (upd : Product → Option (List Char))
    (timeUp1 timeUp2 : Nat → Bool) (res res2 : BatchResults) (j : Nat)
    (hk : keyTruthy apiKey = true)
    (h1 : (enrichHandler postM batchSize hbs dryRun none skip limit apiKey
        store genFetch parseJson upd timeUp1).1 = .batchStopped res j)
    (h2 : (enrichHandler postM batchSize hbs dryRun none j none apiKey
        (applySkipLimit store skip limit) genFetch parseJson upd timeUp2).1 =
      .batchDone res2) :
    (enrichHandler postM batchSize hbs dryRun none skip limit apiKey store
        genFetch parseJson upd timeUp1).2.attempted =
      (applySkipLimit store skip limit).take j ∧
    (enrichHandler postM batchSize hbs dryRun none j none apiKey
        (applySkipLimit store skip limit) genFetch parseJson upd
        timeUp2).2.attempted =
      (applySkipLimit store skip limit).drop j ∧
    (enrichHandler postM batchSize hbs dryRun none skip limit apiKey store
        genFetch parseJson upd timeUp1).2.attempted ++
      (enrichHandler postM batchSize hbs dryRun none j none apiKey
        (applySkipLimit store skip limit) genFetch parseJson upd
        timeUp2).2.attempted = applySkipLimit store skip limit := by
  rw [enrichHandler_batch postM batchSize hbs dryRun none skip limit apiKey
    store genFetch parseJson upd timeUp1 rfl hk rfl] at h1 ⊢
  rw [enrichHandler_batch postM batchSize hbs dryRun none j none apiKey
    (applySkipLimit store skip limit) genFetch parseJson upd timeUp2 rfl hk
    rfl] at h2 ⊢
  rw [applySkipLimit_resume] at h2 ⊢
  cases hl1 : enrichLoop (applySkipLimit store skip limit) batchSize hbs
      timeUp1 dryRun (fun p => generateKeywordsRun (genFetch p) parseJson) upd
      0 initAcc with
  | finished acc =>
    rw [hl1] at h1
    exact absurd h1 (by simp)
  | stopped acc j' =>
    rw [hl1] at h1
    have h1' : EnrichResp.batchStopped
        ⟨(applySkipLimit store skip limit).length, acc.processed, acc.updated,
         acc.errors, dryRun⟩ j' = .batchStopped res j := h1
    injection h1' with hres hj
    cases hl2 : enrichLoop ((applySkipLimit store skip limit).drop j) batchSize
        hbs timeUp2 dryRun (fun p => generateKeywordsRun (genFetch p) parseJson)
        upd 0 initAcc with
    | stopped acc2 k =>
      rw [hl2] at h2
      exact absurd h2 (by simp)
    | finished acc2 =>
      obtain ⟨hdvd, hlt, _, hacc⟩ := enrichLoop_stopped hl1
      have he2 := enrichLoop_finished hl2
      subst hj
      have hA : acc.attempted = (applySkipLimit store skip limit).take j' := by
        rw [hacc, foldl_processOne_attempted]
        simp [initAcc]
      have hB : acc2.attempted = (applySkipLimit store skip limit).drop j' := by
        rw [he2, foldl_processOne_attempted]
        simp [initAcc]
      refine ⟨hA, hB, ?_⟩
      show acc.attempted ++ acc2.attempted = applySkipLimit store skip limit
      rw [hA, hB, List.take_append_drop]

/-- C8: for a POST to the enrichment endpoint, an absent (or empty)
completion API key yields HTTP 500, and with the key present, a truthy
productId that matches no stored document yields HTTP 404. -/
theorem c8_keyAndNotFound :
    (∀ (batchSize : Nat) (hbs : 0 < batchSize) (dryRun : Bool)
        (productId : Option (List Char)) (skip : Nat) (limit : Option Nat)
        (apiKey : Option (List Char)) (store : List Product)
        (genFetch : Product → GenFetch) (parseJson : List Char → Option JsVal)
        (upd : Product → Option (List Char)) (timeUp : Nat → Bool),
        keyTruthy apiKey = false →
        statusOf (enrichHandler postM batchSize hbs dryRun productId skip
          limit apiKey store genFetch parseJson upd timeUp).1 = 500) ∧
    (∀ (batchSize : Nat) (hbs : 0 < batchSize) (dryRun : Bool)
        (productId : Option (List Char)) (pid : List Char) (skip : Nat)
        (limit : Option Nat) (apiKey : Option (List Char))
        (store : List Product) (genFetch : Product → GenFetch)
        (parseJson : List Char → Option JsVal)
        (upd : Product → Option (List Char)) (timeUp : Nat → Bool),
        keyTruthy apiKey = true → pidGiven productId = some pid →
        store.find? (fun p => p.id == pid) = none →
        statusOf (enrichHandler postM batchSize hbs dryRun productId skip
          limit apiKey store genFetch parseJson upd timeUp).1 = 404) := by
  constructor
  · intro batchSize hbs dryRun productId skip limit apiKey store genFetch
      parseJson upd timeUp hk
    rw [enrichHandler_noKey postM batchSize hbs dryRun productId skip limit
      apiKey store genFetch parseJson upd timeUp rfl hk]
    rfl
  · intro batchSize hbs dryRun productId pid skip limit apiKey store genFetch
      parseJson upd timeUp hk hp hf
    rw [enrichHandler_pid postM batchSize hbs dryRun productId skip limit
      apiKey store genFetch parseJson upd timeUp pid rfl hk hp, hf]
    rfl

/-! ## Concrete witness runs -/

/-- Fixture product "a". -/
def exProd1 : Product := ⟨"a".data, .str "A".data, .undefined, .undefined, .undefined⟩

/-- Fixture product "b". -/
def exProd2 : Product := ⟨"b".data, .str "B".data, .undefined, .undefined, .undefined⟩

/-- Per-product completion-API oracle that always throws. -/
def exGenFail : Product → GenFetch := fun _ => .netThrow "boom".data

/-- Parse oracle on which `JSON.parse` always throws. -/
def exNoParse : List Char → Option JsVal := fun _ => none

/-- Results of the stopped witness run (one attempt, one error). -/
def exStopRes : BatchResults :=
  ⟨2, 0, 0, [⟨"a".data, .str "A".data, "boom".data⟩], false⟩

/-- Results of the resumed witness run (one attempt, one error). -/
def exResumeRes : BatchResults :=
  ⟨1, 0, 0, [⟨"b".data, .str "B".data, "boom".data⟩], false⟩

/-- Witness for C4: a non-dry batched run over two products. -/
theorem c4_writeDiscipline_witness :
    (0 : Nat) < 1 ∧
    (enrichHandler postM 1 (Nat.succ_pos 0) false none 0 none (some "k".data)
        [exProd1, exProd2] exGenFail exNoParse (fun _ => none)
        (fun _ => false)).2.writes =
      (if false then []
       else (enrichHandler postM 1 (Nat.succ_pos 0) false none 0 none
           (some "k".data) [exProd1, exProd2] exGenFail exNoParse
           (fun _ => none) (fun _ => false)).2.attempted.filterMap
         (writeOf (fun p => generateKeywordsRun (exGenFail p) exNoParse))) :=
  ⟨Nat.succ_pos 0, c4_writeDiscipline postM 1 (Nat.succ_pos 0) false none 0
    none (some "k".data) [exProd1, exProd2] exGenFail exNoParse (fun _ => none)
    (fun _ => false)⟩

/-- Witness for C5: the same batched run, with both hypotheses
discharged concretely. -/
theorem c5_processedPlusErrors_witness :
    postM = postM ∧ keyTruthy (some "k".data) = true ∧
    pidGiven none = none ∧
    (∃ res : BatchResults,
      ((enrichHandler postM 1 (Nat.succ_pos 0) false none 0 none
          (some "k".data) [exProd1, exProd2] exGenFail exNoParse
          (fun _ => none) (fun _ => false)).1 = .batchDone res ∨
       ∃ j, (enrichHandler postM 1 (Nat.succ_pos 0) false none 0 none
          (some "k".data) [exProd1, exProd2] exGenFail exNoParse
          (fun _ => none) (fun _ => false)).1 = .batchStopped res j) ∧
      res.processed + res.errors.length =
        (enrichHandler postM 1 (Nat.succ_pos 0) false none 0 none
          (some "k".data) [exProd1, exProd2] exGenFail exNoParse
          (fun _ => none) (fun _ => false)).2.attempted.length) :=
  ⟨rfl, rfl, rfl, c5_processedPlusErrors postM 1 (Nat.succ_pos 0) false none 0
    none (some "k".data) [exProd1, exProd2] exGenFail exNoParse (fun _ => none)
    (fun _ => false) rfl rfl rfl⟩

/-- Witness for C9: batch size 1 over two products with the time budget
exhausted at the check before index 1. -/
theorem c9_stoppedPrefix_witness :
    postM = postM ∧ keyTruthy (some "k".data) = true ∧
    pidGiven none = none ∧
    (enrichHandler postM 1 (Nat.succ_pos 0) false none 0 none (some "k".data)
        [exProd1, exProd2] exGenFail exNoParse (fun _ => none)
        (fun i => i == 1)).1 = .batchStopped exStopRes 1 ∧
    ((enrichHandler postM 1 (Nat.succ_pos 0) false none 0 none (some "k".data)
        [exProd1, exProd2] exGenFail exNoParse (fun _ => none)
        (fun i => i == 1)).2.attempted =
      (applySkipLimit [exProd1, exProd2] 0 none).take 1 ∧
     1 ∣ 1 ∧ 1 < (applySkipLimit [exProd1, exProd2] 0 none).length) := by
  have hstop : (enrichHandler postM 1 (Nat.succ_pos 0) false none 0 none
      (some "k".data) [exProd1, exProd2] exGenFail exNoParse (fun _ => none)
      (fun i => i == 1)).1 = .batchStopped exStopRes 1 := by
    simp [enrichHandler, enrichLoop, processBatch, chunksPos, processOne,
      applySkipLimit, pidGiven, keyTruthy, initAcc, generateKeywordsRun,
      exGenFail, exStopRes, exProd1, exProd2, postM, optionsM]
  exact ⟨rfl, rfl, rfl, hstop, c9_stoppedPrefix postM 1 (Nat.succ_pos 0) false
    none 0 none (some "k".data) [exProd1, exProd2] exGenFail exNoParse
    (fun _ => none) (fun i => i == 1) exStopRes 1 rfl rfl rfl hstop⟩

/-- Witness for C6: the stopped run of the C9 scenario resumed with
`skip = 1` over the same candidate set, running to completion. -/
theorem c6_resumeExact_witness :
    keyTruthy (some "k".data) = true ∧
    (enrichHandler postM 1 (Nat.succ_pos 0) false none 0 none (some "k".data)
        [exProd1, exProd2] exGenFail exNoParse (fun _ => none)
        (fun i => i == 1)).1 = .batchStopped exStopRes 1 ∧
    (enrichHandler postM 1 (Nat.succ_pos 0) false none 1 none (some "k".data)
        (applySkipLimit [exProd1, exProd2] 0 none) exGenFail exNoParse
        (fun _ => none) (fun _ => false)).1 = .batchDone exResumeRes ∧
    ((enrichHandler postM 1 (Nat.succ_pos 0) false none 0 none (some "k".data)
        [exProd1, exProd2] exGenFail exNoParse (fun _ => none)
        (fun i => i == 1)).2.attempted =
      (applySkipLimit [exProd1, exProd2] 0 none).take 1 ∧
     (enrichHandler postM 1 (Nat.succ_pos 0) false none 1 none (some "k".data)
        (applySkipLimit [exProd1, exProd2] 0 none) exGenFail exNoParse
        (fun _ => none) (fun _ => false)).2.attempted =
      (applySkipLimit [exProd1, exProd2] 0 none).drop 1 ∧
     (enrichHandler postM 1 (Nat.succ_pos 0) false none 0 none (some "k".data)
        [exProd1, exProd2] exGenFail exNoParse (fun _ => none)
        (fun i => i == 1)).2.attempted ++
       (enrichHandler postM 1 (Nat.succ_pos 0) false none 1 none
        (some "k".data) (applySkipLimit [exProd1, exProd2] 0 none) exGenFail
        exNoParse (fun _ => none) (fun _ => false)).2.attempted =
      applySkipLimit [exProd1, exProd2] 0 none) := by
  have h1 : (enrichHandler postM 1 (Nat.succ_pos 0) false none 0 none
      (some "k".data) [exProd1, exProd2] exGenFail exNoParse (fun _ => none)
      (fun i => i == 1)).1 = .batchStopped exStopRes 1 := by
    simp [enrichHandler, enrichLoop, processBatch, chunksPos, processOne,
      applySkipLimit, pidGiven, keyTruthy, initAcc, generateKeywordsRun,
      exGenFail, exStopRes, exProd1, exProd2, postM, optionsM]
  have h2 : (enrichHandler postM 1 (Nat.succ_pos 0) false none 1 none
      (some "k".data) (applySkipLimit [exProd1, exProd2] 0 none) exGenFail
      exNoParse (fun _ => none) (fun _ => false)).1 = .batchDone exResumeRes := by
    simp [enrichHandler, enrichLoop, processBatch, chunksPos, processOne,
      applySkipLimit, pidGiven, keyTruthy, initAcc, generateKeywordsRun,
      exGenFail, exResumeRes, exProd1, exProd2, postM, optionsM]
  exact ⟨rfl, h1, h2, c6_resumeExact 1 (Nat.succ_pos 0) false 0 none
    (some "k".data) [exProd1, exProd2] exGenFail exNoParse (fun _ => none)
    (fun i => i == 1) (fun _ => false) exStopRes exResumeRes 1 rfl h1 h2⟩

/-- Witness for C8: a missing key yields 500 on the empty store; with a
key and a productId matching nothing, 404. -/
theorem c8_keyAndNotFound_witness :
    (keyTruthy (none : Option (List Char)) = false ∧
      statusOf (enrichHandler postM 1 (Nat.succ_pos 0) false none 0 none none
        [] exGenFail exNoParse (fun _ => none) (fun _ => false)).1 = 500) ∧
    (keyTruthy (some "k".data) = true ∧
      pidGiven (some "zz".data) = some "zz".data ∧
      [exProd1].find? (fun p => p.id == "zz".data) = none ∧
      statusOf (enrichHandler postM 1 (Nat.succ_pos 0) false (some "zz".data)
        0 none (some "k".data) [exProd1] exGenFail exNoParse (fun _ => none)
        (fun _ => false)).1 = 404) :=
  ⟨⟨rfl, c8_keyAndNotFound.1 1 (Nat.succ_pos 0) false none 0 none none []
      exGenFail exNoParse (fun _ => none) (fun _ => false) rfl⟩,
   ⟨rfl, rfl, rfl, c8_keyAndNotFound.2 1 (Nat.succ_pos 0) false
      (some "zz".data) "zz".data 0 none (some "k".data) [exProd1] exGenFail
      exNoParse (fun _ => none) (fun _ => false) rfl rfl rfl⟩⟩
